import Mathlib

/-!
Verification of the md2MarpAPI slide pipeline (Go) against its specification.

The repository has two versions of the program:
* `src/indev/main.go`   — modelled below with names suffixed `Indev` (or no suffix
  where the two versions share the code verbatim);
* `src/unnamed/part_000` — modelled with names suffixed `B`.

Strings that the Go code manipulates line-by-line are modelled as `List Char`
(`String.data`); Go's `strings.Split(s, "\n")`, `strings.TrimSpace` and
`strings.HasPrefix` are given explicit executable models below.
`unicode.IsSpace` is modelled on its ASCII part plus U+0085/U+00A0 (the inputs
the program meets are Markdown text; no other Unicode space characters occur in
any claim).
-/

namespace Md2Marp

/-- Model of Go `unicode.IsSpace` (ASCII whitespace plus U+0085, U+00A0). -/
def goIsSpace (c : Char) : Bool :=
  c = ' ' || c = '\t' || c = '\n' || c = '\x0b' || c = '\x0c' || c = '\r' ||
  c = '\x85' || c = '\xa0'

/-- Model of Go `strings.TrimSpace` on a list of characters: drop whitespace
from both ends. -/
def trimChars (l : List Char) : List Char :=
  ((l.dropWhile goIsSpace).reverse.dropWhile goIsSpace).reverse

/-- Model of Go `strings.Split(s, "\n")`: split at every newline; the result
always has one more piece than the number of newlines (`Split("", sep) = [""]`,
`Split("a\n", sep) = ["a", ""]`). -/
def splitNl : List Char → List (List Char)
  | [] => [[]]
  | c :: rest =>
    if c = '\n' then [] :: splitNl rest
    else
      match splitNl rest with
      | [] => [[c]]
      | l :: ls => (c :: l) :: ls

/-- Go `strings.HasPrefix(s, ":::")` on a character list. -/
def hasTagMarker (l : List Char) : Bool :=
  [':', ':', ':'].isPrefixOf l

/-- Go `strings.Contains(s, sub)` on character lists: some suffix of `s`
starts with `sub`. -/
def containsSub (s sub : List Char) : Bool :=
  (List.range (s.length + 1)).any fun i => sub.isPrefixOf (s.drop i)

/-- `isQiitaBlock` from both sources: `strings.Contains(strings.TrimSpace(content), ":::")`. -/
def isQiitaBlock (content : String) : Bool :=
  containsSub (trimChars content.data) [':', ':', ':']

/-- The loop body of `extractTextFromQiitaBlock`, on the list of lines:
for each line, trim it; skip it if the trimmed form starts with `":::"`,
otherwise write the trimmed line plus a newline to the builder (`acc`). -/
def qiitaFold (lines : List (List Char)) (acc : List Char) : List Char :=
  match lines with
  | [] => acc
  | line :: rest =>
    let trimmed := trimChars line
    if hasTagMarker trimmed then qiitaFold rest acc
    else qiitaFold rest (acc ++ trimmed ++ ['\n'])

/-- `extractTextFromQiitaBlock` from both sources: split on `"\n"`, drop lines
whose trimmed form starts with `":::"`, and write every other line's trimmed
form followed by a newline into a builder. -/
def extractTextFromQiitaBlock (blockText : String) : String :=
  String.mk (qiitaFold (splitNl blockText.data) [])

/-- The per-line keep function used to state properties of the filter:
`none` for a dropped tag line, `some (trimmed ++ "\n")` for a kept line. -/
def qiitaKeep (line : List Char) : Option (List Char) :=
  let trimmed := trimChars line
  if hasTagMarker trimmed then none else some (trimmed ++ ['\n'])

theorem qiitaFold_eq_filterMap (lines : List (List Char)) (acc : List Char) :
    qiitaFold lines acc = acc ++ (lines.filterMap qiitaKeep).flatten := by
  induction lines generalizing acc with
  | nil => simp [qiitaFold]
  | cons line rest ih =>
    simp only [qiitaFold, qiitaKeep, List.filterMap_cons]
    split
    · simpa using ih acc
    · rw [ih]
      simp

/-- `splitNl` never returns the empty list of pieces. -/
theorem splitNl_ne_nil (l : List Char) : splitNl l ≠ [] := by
  cases l with
  | nil => simp [splitNl]
  | cons c rest =>
    simp only [splitNl]
    split
    · simp
    · split <;> simp

/-- No piece produced by `splitNl` contains a newline. -/
theorem splitNl_no_newline (l : List Char) :
    ∀ p ∈ splitNl l, '\n' ∉ p := by
  induction l with
  | nil => simp [splitNl]
  | cons c rest ih =>
    intro p hp
    simp only [splitNl] at hp
    by_cases hc : c = '\n'
    · simp [hc] at hp
      rcases hp with h | h
      · simp [h]
      · exact ih p h
    · simp [hc] at hp
      rcases hrest : splitNl rest with _ | ⟨l0, ls⟩
      · exact absurd hrest (splitNl_ne_nil rest)
      · rw [hrest] at hp
        simp at hp
        rcases hp with h | h
        · subst h
          intro hmem
          rcases List.mem_cons.mp hmem with h1 | h1
          · exact hc h1.symm
          · exact ih l0 (by rw [hrest]; exact List.mem_cons_self l0 ls) h1
        · exact ih p (by rw [hrest]; exact List.mem_cons_of_mem l0 h)

/-- Splitting a list with an explicit newline in the middle splits around it. -/
theorem splitNl_append_cons (a b : List Char) :
    splitNl (a ++ '\n' :: b) = splitNl a ++ splitNl b := by
  induction a with
  | nil => simp [splitNl]
  | cons c rest ih =>
    by_cases hc : c = '\n'
    · subst hc
      simp only [List.cons_append, splitNl, List.append_eq, ih]
      simp
    · simp only [List.cons_append, splitNl, if_neg hc, List.append_eq, ih]
      rcases hrest : splitNl rest with _ | ⟨l0, ls⟩
      · exact absurd hrest (splitNl_ne_nil rest)
      · simp [hrest]

/-- `trimChars` is left-drop followed by Mathlib's right-drop. -/
theorem trimChars_eq_rdropWhile (l : List Char) :
    trimChars l = (l.dropWhile goIsSpace).rdropWhile goIsSpace := rfl

theorem dropWhile_rdropWhile_self {p : Char → Bool} {y : List Char}
    (hy : y.dropWhile p = y) : (y.rdropWhile p).dropWhile p = y.rdropWhile p := by
  cases hr : y.rdropWhile p with
  | nil => simp
  | cons a as =>
    obtain ⟨t, ht⟩ := List.rdropWhile_prefix p y
    rw [hr] at ht
    rw [← ht] at hy
    by_cases hpa : p a
    · rw [List.cons_append, List.dropWhile_cons, if_pos hpa] at hy
      have hle := (List.dropWhile_sublist (l := as ++ t) (p := p)).length_le
      rw [hy] at hle
      simp at hle
    · rw [List.dropWhile_cons, if_neg hpa]

theorem trimChars_idem (l : List Char) : trimChars (trimChars l) = trimChars l := by
  rw [trimChars_eq_rdropWhile, trimChars_eq_rdropWhile,
    dropWhile_rdropWhile_self (List.dropWhile_idempotent goIsSpace l),
    List.rdropWhile_idempotent]

theorem trimChars_sublist (l : List Char) : (trimChars l).Sublist l := by
  rw [trimChars_eq_rdropWhile]
  exact ((List.rdropWhile_prefix goIsSpace (l.dropWhile goIsSpace)).sublist).trans
    ((List.dropWhile_suffix goIsSpace).sublist)

/-- All lines kept by the filter, in trimmed form (before the newline is
re-appended): the specification-side view of the loop. -/
def keptTrimmed (lines : List (List Char)) : List (List Char) :=
  lines.filterMap fun line =>
    let t := trimChars line
    if hasTagMarker t then none else some t

theorem filterMap_qiitaKeep_eq (lines : List (List Char)) :
    lines.filterMap qiitaKeep = (keptTrimmed lines).map (· ++ ['\n']) := by
  induction lines with
  | nil => rfl
  | cons line rest ih =>
    by_cases hm : hasTagMarker (trimChars line)
    · simp only [qiitaKeep, keptTrimmed, List.filterMap_cons] at ih ⊢
      simp [hm, ih, keptTrimmed]
    · simp only [qiitaKeep, keptTrimmed, List.filterMap_cons] at ih ⊢
      simp [hm, ih, keptTrimmed]

/-- The character-level body of `extractTextFromQiitaBlock`. -/
def qiitaChars (l : List Char) : List Char :=
  qiitaFold (splitNl l) []

theorem qiitaChars_eq (l : List Char) :
    qiitaChars l = ((keptTrimmed (splitNl l)).map (· ++ ['\n'])).flatten := by
  rw [qiitaChars, qiitaFold_eq_filterMap, filterMap_qiitaKeep_eq, List.nil_append]

theorem extractTextFromQiitaBlock_data (s : String) :
    (extractTextFromQiitaBlock s).data = qiitaChars s.data := rfl

theorem splitNl_single {k : List Char} (hk : '\n' ∉ k) : splitNl k = [k] := by
  induction k with
  | nil => rfl
  | cons c rest ih =>
    have hc : ¬c = '\n' := fun h => hk (h ▸ List.mem_cons_self c rest)
    have hrest : '\n' ∉ rest := fun h => hk (List.mem_cons_of_mem c h)
    simp [splitNl, hc, ih hrest]

theorem splitNl_flatten (ks : List (List Char)) (h : ∀ k ∈ ks, '\n' ∉ k) :
    splitNl ((ks.map (· ++ ['\n'])).flatten) = ks ++ [[]] := by
  induction ks with
  | nil => rfl
  | cons k rest ih =>
    have hk : '\n' ∉ k := h k (List.mem_cons_self k rest)
    have hr : ∀ x ∈ rest, '\n' ∉ x := fun x hx => h x (List.mem_cons_of_mem k hx)
    simp only [List.map_cons, List.flatten_cons, List.append_assoc, List.singleton_append]
    rw [splitNl_append_cons, splitNl_single hk, ih hr]
    rfl

theorem keptTrimmed_mem {l : List Char} :
    ∀ k ∈ keptTrimmed (splitNl l),
      trimChars k = k ∧ hasTagMarker k = false ∧ '\n' ∉ k := by
  intro k hk
  simp only [keptTrimmed, List.mem_filterMap] at hk
  obtain ⟨p, hp, hkeep⟩ := hk
  by_cases hm : hasTagMarker (trimChars p)
  · simp [hm] at hkeep
  · rw [if_neg hm] at hkeep
    obtain rfl : trimChars p = k := Option.some.inj hkeep
    refine ⟨trimChars_idem p, by simpa using hm, fun hmem => ?_⟩
    exact splitNl_no_newline l p hp ((trimChars_sublist p).mem hmem)

theorem keptTrimmed_of_clean (ks : List (List Char))
    (h : ∀ k ∈ ks, trimChars k = k ∧ hasTagMarker k = false) :
    keptTrimmed ks = ks := by
  induction ks with
  | nil => rfl
  | cons k rest ih =>
    obtain ⟨ht, hm⟩ := h k (List.mem_cons_self k rest)
    simp only [keptTrimmed, List.filterMap_cons, ht, hm]
    simp only [Bool.false_eq_true, if_false]
    rw [show rest.filterMap _ = keptTrimmed rest from rfl,
      ih fun x hx => h x (List.mem_cons_of_mem k hx)]

/-- Each application of the Qiita filter appends exactly one more trailing
newline: the split of a string with `n` newlines has `n + 1` pieces and every
kept piece gets a newline written after it. -/
theorem qiitaChars_twice (l : List Char) :
    qiitaChars (qiitaChars l) = qiitaChars l ++ ['\n'] := by
  have hnl : ∀ k ∈ keptTrimmed (splitNl l), '\n' ∉ k :=
    fun k hk => (keptTrimmed_mem k hk).2.2
  have hsplit : splitNl (qiitaChars l) = keptTrimmed (splitNl l) ++ [[]] := by
    rw [qiitaChars_eq]
    exact splitNl_flatten _ hnl
  have hclean : keptTrimmed (keptTrimmed (splitNl l) ++ [[]]) =
      keptTrimmed (splitNl l) ++ [[]] := by
    have h1 : keptTrimmed (keptTrimmed (splitNl l)) = keptTrimmed (splitNl l) :=
      keptTrimmed_of_clean _ fun k hk =>
        ⟨(keptTrimmed_mem k hk).1, (keptTrimmed_mem k hk).2.1⟩
    have h2 : keptTrimmed [([] : List Char)] = [[]] := rfl
    rw [keptTrimmed, List.filterMap_append,
      show (keptTrimmed (splitNl l)).filterMap _ = keptTrimmed (keptTrimmed (splitNl l)) from rfl,
      h1, show List.filterMap _ [([] : List Char)] = keptTrimmed [[]] from rfl, h2]
  conv_lhs => rw [qiitaChars_eq, hsplit, hclean]
  rw [List.map_append, List.flatten_append, ← qiitaChars_eq]
  rfl

/-- The hypothesis of claims C2/C6: no line of the text has a trimmed form
starting with `":::"`. -/
def hasNoTagLines (s : String) : Bool :=
  (splitNl s.data).all fun line => !(hasTagMarker (trimChars line))

/-- C2 counterexample: `"a"` has no `":::"` lines, yet the filter returns
`"a\n"`, not `"a"` — a trailing newline is appended, so the filter is not
the identity on already-filtered text. -/
theorem C2_counterexample :
    hasNoTagLines "a" = true ∧
    extractTextFromQiitaBlock "a" = "a\n" ∧ ("a\n" : String) ≠ "a" := by
  refine ⟨by decide, by decide, by decide⟩

/-- C2 (amended): the Qiita filter is not idempotent on any input. Splitting
produces one piece more than the number of newlines and every kept piece is
written back with a newline after it, so each application appends exactly one
trailing newline: `f (f t) = f t ++ "\n"`, and in particular `f (f t) ≠ f t`.
-/
theorem C2_qiita_filter_not_idempotent (t : String) :
    extractTextFromQiitaBlock (extractTextFromQiitaBlock t) =
      extractTextFromQiitaBlock t ++ "\n" ∧
    extractTextFromQiitaBlock (extractTextFromQiitaBlock t) ≠
      extractTextFromQiitaBlock t := by
  have hdata : (extractTextFromQiitaBlock (extractTextFromQiitaBlock t)).data =
      (extractTextFromQiitaBlock t ++ "\n").data := by
    rw [String.data_append, extractTextFromQiitaBlock_data,
      extractTextFromQiitaBlock_data, qiitaChars_twice]
  have heq := String.ext hdata
  refine ⟨heq, fun hcontra => ?_⟩
  rw [heq] at hcontra
  have hlen := congrArg (fun s => s.data.length) hcontra
  simp [String.data_append] at hlen

/-- C6 counterexample: on input `" a"` (no tag lines) the filter returns the
TRIMMED surviving line `"a\n"`, not the original line unchanged (`" a\n"`). -/
theorem C6_counterexample :
    hasNoTagLines " a" = true ∧
    extractTextFromQiitaBlock " a" = "a\n" ∧ ("a\n" : String) ≠ " a\n" := by
  refine ⟨by decide, by decide, by decide⟩

/-- C6 (amended): `extractTextFromQiitaBlock` splits the text on newline
boundaries, drops exactly those lines whose trimmed form starts with `":::"`,
and returns the surviving lines TRIMMED (not unchanged), in their original
order, each followed by a newline. -/
theorem C6_qiita_filter_characterization (s : String) :
    extractTextFromQiitaBlock s =
      String.mk (((splitNl s.data).filterMap qiitaKeep).flatten) := by
  apply String.ext
  rw [extractTextFromQiitaBlock_data, qiitaChars, qiitaFold_eq_filterMap,
    List.nil_append]

/-- A slide: `type Slide struct { Title string; Content string }`. -/
structure Slide where
  Title : String
  Content : String
deriving DecidableEq, Repr, Inhabited

/- Model of the goldmark AST restricted to the node kinds the walker
dispatches on.  Leaf kinds whose text the Go code reads through `.Text` /
`.Destination` / `.URL` carry that text directly.  `textNode` is
`ast.KindText`, `stringNode` is `ast.KindString`; both are literal-text
leaves collected by `extractText`.  Kinds that the switch ignores but that
occur as containers (`document`, `list`, and in the indev version
`paragraph`) are still modelled because the walk descends through them. -/
mutual
inductive Node where
  | document (children : Forest)
  | heading (level : Nat) (children : Forest)
  | paragraph (children : Forest)
  | textBlock (children : Forest)
  | textNode (s : String)
  | stringNode (s : String)
  | rawHTML (s : String)
  | htmlBlock (s : String)
  | listNode (children : Forest)
  | listItem (children : Forest)
  | codeBlock (s : String)
  | codeSpan (s : String)
  | fencedCodeBlock (s : String)
  | image (dest : String) (children : Forest)
  | link (dest : String) (children : Forest)
  | autoLink (url : String)
inductive Forest where
  | nil
  | cons (n : Node) (rest : Forest)
end

def Forest.ofList : List Node → Forest
  | [] => .nil
  | n :: rest => .cons n (Forest.ofList rest)

/- `extractText`: pre-order concatenation of the text of every
`ast.KindText` / `ast.KindString` node in the subtree. -/
mutual
def extractTextNode : Node → String
  | .document cs => extractTextForest cs
  | .heading _ cs => extractTextForest cs
  | .paragraph cs => extractTextForest cs
  | .textBlock cs => extractTextForest cs
  | .textNode s => s
  | .stringNode s => s
  | .rawHTML _ => ""
  | .htmlBlock _ => ""
  | .listNode cs => extractTextForest cs
  | .listItem cs => extractTextForest cs
  | .codeBlock _ => ""
  | .codeSpan _ => ""
  | .fencedCodeBlock _ => ""
  | .image _ cs => extractTextForest cs
  | .link _ cs => extractTextForest cs
  | .autoLink _ => ""
def extractTextForest : Forest → String
  | .nil => ""
  | .cons n rest => extractTextNode n ++ extractTextForest rest
end

/-- `if currentSlide != nil { currentSlide.Content += txt }`. -/
def addContent (cur : Option Slide) (txt : String) : Option Slide :=
  match cur with
  | none => none
  | some s => some { s with Content := s.Content ++ txt }

/-- The walker state of `parseMarkdown` in `src/indev/main.go`: the slides
accumulated so far, the open slide, the heading counter `count` (starts at 0),
the suppression flag `afterOption`, and the two package-level side lists
`images` / `images_index`. -/
structure IState where
  slides : List Slide
  currentSlide : Option Slide
  count : Int
  afterOption : Bool
  images : List String
  imagesIndex : List Int
deriving DecidableEq, Repr

def initIState : IState :=
  { slides := [], currentSlide := none, count := 0, afterOption := false,
    images := [], imagesIndex := [] }

/- The `ast.Walk` of `parseMarkdown` (indev version), entering steps only.
`walkINode st n` processes node `n` on entry and then its children, except
that the Qiita branch of the text case returns `WalkSkipChildren`. -/
mutual
def walkINode (st : IState) (n : Node) : IState :=
  match n with
  | .document cs => walkIForest st cs
  | .heading level cs =>
    let headingText := extractTextForest cs
    let st1 :=
      if level ≤ 4 then
        { st with
          slides := st.slides ++
            (match st.currentSlide with | some c => [c] | none => []),
          currentSlide := some { Title := headingText, Content := "" },
          count := st.count + 1 }
      else st
    walkIForest { st1 with afterOption := true } cs
  | .paragraph cs => walkIForest st cs
  | .textBlock cs =>
    if st.afterOption then walkIForest { st with afterOption := false } cs
    else
      let textContent := extractTextForest cs
      if isQiitaBlock textContent then
        { st with currentSlide :=
            addContent st.currentSlide (extractTextFromQiitaBlock textContent ++ "\n") }
      else
        walkIForest
          { st with currentSlide := addContent st.currentSlide (textContent ++ "\n") } cs
  | .textNode s =>
    if st.afterOption then { st with afterOption := false }
    else if isQiitaBlock s then
      { st with currentSlide :=
          addContent st.currentSlide (extractTextFromQiitaBlock s ++ "\n") }
    else { st with currentSlide := addContent st.currentSlide (s ++ "\n") }
  | .stringNode _ => st
  | .rawHTML s =>
    { st with currentSlide := addContent st.currentSlide ("\n" ++ s) }
  | .htmlBlock s =>
    { st with currentSlide := addContent st.currentSlide ("\n" ++ s ++ "\n") }
  | .listNode cs => walkIForest st cs
  | .listItem cs =>
    walkIForest
      (if st.currentSlide.isSome then { st with afterOption := true } else st) cs
  | .codeBlock s =>
    { st with currentSlide :=
        addContent st.currentSlide ("\n```\n" ++ s ++ "\n```\n") }
  | .codeSpan s =>
    { st with currentSlide := addContent st.currentSlide ("`" ++ s ++ "`\n") }
  | .fencedCodeBlock s =>
    { st with currentSlide :=
        addContent st.currentSlide ("\n```\n" ++ s ++ "\n```\n") }
  | .image dest cs =>
    let st1 :=
      if st.currentSlide.isSome then
        { st with
          images := st.images ++ ["\n---\n![bg fit](" ++ dest ++ ")\n"],
          imagesIndex := st.imagesIndex ++ [st.count],
          afterOption := true }
      else st
    walkIForest st1 cs
  | .link dest cs =>
    let st1 :=
      if st.currentSlide.isSome then
        { st with
          currentSlide := addContent st.currentSlide
            ("\n[" ++ extractTextForest cs ++ "](" ++ dest ++ ")\n"),
          afterOption := true }
      else st
    walkIForest st1 cs
  | .autoLink url =>
    if st.currentSlide.isSome then
      { st with
        currentSlide := addContent st.currentSlide ("\n[リンク](" ++ url ++ ")\n"),
        afterOption := true }
    else st
def walkIForest (st : IState) (f : Forest) : IState :=
  match f with
  | .nil => st
  | .cons n rest => walkIForest (walkINode st n) rest
end

/-- After the walk: `if currentSlide != nil { slides = append(slides, currentSlide) }`. -/
def IState.finalSlides (st : IState) : List Slide :=
  st.slides ++ (match st.currentSlide with | some c => [c] | none => [])

/-- `parseMarkdown` of the indev version: full final walker state
(the returned slide list is `IState.finalSlides` of it). -/
def parseMarkdownIndev (doc : Node) : IState :=
  walkINode initIState doc

def slidesIndev (doc : Node) : List Slide :=
  (parseMarkdownIndev doc).finalSlides

/-- The walker state of `parseMarkdown` in `src/unnamed/part_000`: same shape,
but `count` starts at -1 and the suppression flag is named `afterList`. -/
structure BState where
  slides : List Slide
  currentSlide : Option Slide
  count : Int
  afterList : Bool
  images : List String
  imagesIndex : List Int
deriving DecidableEq, Repr

def initBState : BState :=
  { slides := [], currentSlide := none, count := -1, afterList := false,
    images := [], imagesIndex := [] }

/- The `ast.Walk` of `parseMarkdown` (`src/unnamed/part_000`), entering steps
only.  Differences from the indev version: the heading case does not touch the
flag; `KindParagraph` shares the text case with `KindTextBlock`/`KindText`;
the flag test only suppresses the `extractText` call (the append still runs
with the empty string, adding a bare newline); `image`/`link`/`autoLink` do
not set the flag; `count` starts at -1. -/
mutual
def walkBNode (st : BState) (n : Node) : BState :=
  match n with
  | .document cs => walkBForest st cs
  | .heading level cs =>
    let headingText := extractTextForest cs
    let st1 :=
      if level ≤ 4 then
        { st with
          slides := st.slides ++
            (match st.currentSlide with | some c => [c] | none => []),
          currentSlide := some { Title := headingText, Content := "" },
          count := st.count + 1 }
      else st
    walkBForest st1 cs
  | .paragraph cs =>
    -- shared KindParagraph/KindTextBlock/KindText case; the Qiita branch
    -- returns WalkSkipChildren, every other branch walks the children
    let textContent := if st.afterList then "" else extractTextForest cs
    let st0 := { st with afterList := false }
    if isQiitaBlock textContent then
      { st0 with currentSlide :=
          addContent st0.currentSlide (extractTextFromQiitaBlock textContent ++ "\n") }
    else
      walkBForest
        { st0 with currentSlide := addContent st0.currentSlide (textContent ++ "\n") } cs
  | .textBlock cs =>
    let textContent := if st.afterList then "" else extractTextForest cs
    let st0 := { st with afterList := false }
    if isQiitaBlock textContent then
      { st0 with currentSlide :=
          addContent st0.currentSlide (extractTextFromQiitaBlock textContent ++ "\n") }
    else
      walkBForest
        { st0 with currentSlide := addContent st0.currentSlide (textContent ++ "\n") } cs
  | .textNode s =>
    -- the shared text case at a leaf (no children to walk or skip)
    let textContent := if st.afterList then "" else s
    let st0 := { st with afterList := false }
    if isQiitaBlock textContent then
      { st0 with currentSlide :=
          addContent st0.currentSlide (extractTextFromQiitaBlock textContent ++ "\n") }
    else
      { st0 with currentSlide := addContent st0.currentSlide (textContent ++ "\n") }
  | .stringNode _ => st
  | .rawHTML s =>
    { st with currentSlide := addContent st.currentSlide ("\n" ++ s) }
  | .htmlBlock s =>
    { st with currentSlide := addContent st.currentSlide ("\n" ++ s ++ "\n") }
  | .listNode cs => walkBForest st cs
  | .listItem cs =>
    walkBForest
      (if st.currentSlide.isSome then { st with afterList := true } else st) cs
  | .codeBlock s =>
    { st with currentSlide :=
        addContent st.currentSlide ("\n```\n" ++ s ++ "\n```\n") }
  | .codeSpan s =>
    { st with currentSlide := addContent st.currentSlide ("`" ++ s ++ "`\n") }
  | .fencedCodeBlock s =>
    { st with currentSlide :=
        addContent st.currentSlide ("\n```\n" ++ s ++ "\n```\n") }
  | .image dest cs =>
    let st1 :=
      if st.currentSlide.isSome then
        { st with
          images := st.images ++ ["\n---\n![bg fit](" ++ dest ++ ")\n"],
          imagesIndex := st.imagesIndex ++ [st.count] }
      else st
    walkBForest st1 cs
  | .link dest cs =>
    let st1 :=
      if st.currentSlide.isSome then
        { st with
          currentSlide := addContent st.currentSlide
            ("\n[" ++ extractTextForest cs ++ "](" ++ dest ++ ")\n") }
      else st
    walkBForest st1 cs
  | .autoLink url =>
    if st.currentSlide.isSome then
      { st with
        currentSlide := addContent st.currentSlide ("\n[リンク](" ++ url ++ ")\n") }
    else st
def walkBForest (st : BState) (f : Forest) : BState :=
  match f with
  | .nil => st
  | .cons n rest => walkBForest (walkBNode st n) rest
end

def BState.finalSlides (st : BState) : List Slide :=
  st.slides ++ (match st.currentSlide with | some c => [c] | none => [])

/-- `parseMarkdown` of `src/unnamed/part_000`: full final walker state. -/
def parseMarkdownB (doc : Node) : BState :=
  walkBNode initBState doc

def slidesB (doc : Node) : List Slide :=
  (parseMarkdownB doc).finalSlides

/-- The goldmark parse of `"# Title\nHello\n# Page2\nWorld"`: two level-1
headings, each followed by a paragraph of plain text. -/
def docC4 : Node :=
  .document (Forest.ofList
    [ .heading 1 (Forest.ofList [.textNode "Title"]),
      .paragraph (Forest.ofList [.textNode "Hello"]),
      .heading 1 (Forest.ofList [.textNode "Page2"]),
      .paragraph (Forest.ofList [.textNode "World"]) ])

/-- C4 counterexample: the part_000 segmenter does NOT produce the two slides
claimed — its heading case leaves the suppression flag unset, so each slide's
content starts with the heading's own text, and the paragraph text is captured
twice (once at the paragraph node, once at its text child). -/
theorem C4_counterexample :
    slidesB docC4 ≠
      [{ Title := "Title", Content := "Hello\n" },
       { Title := "Page2", Content := "World\n" }] := by decide

/-- C4 (amended): segmenting `"# Title\nHello\n# Page2\nWorld"` gives the two
claimed slides in the indev version; in the part_000 version the titles agree
but each content also contains the slide's own title line and the paragraph
text twice. -/
theorem C4_example_segmentation :
    slidesIndev docC4 =
      [{ Title := "Title", Content := "Hello\n" },
       { Title := "Page2", Content := "World\n" }] ∧
    slidesB docC4 =
      [{ Title := "Title", Content := "Title\nHello\nHello\n" },
       { Title := "Page2", Content := "Page2\nWorld\nWorld\n" }] := by
  refine ⟨by decide, by decide⟩

/-- C10: in the indev walker the heading case sets `afterOption = true`
outside the `heading.Level <= 4` test, so every heading sets the suppression
flag.  Consequently (first conjunct) a level-5/6 heading with no text child
followed immediately by a text node leaves the walker state untouched except
for the flag: the text is silently dropped and no slide is opened; and
(second conjunct) when the level-5/6 heading has a text child — the node
immediately following it in pre-order — that child consumes the flag, so the
heading text is neither made a title nor appended to any content.  The third
conjunct shows the flag is set by headings of every level. -/
theorem C10_low_heading_suppresses_text (st : IState) (level : Nat) (s : String)
    (h5 : 5 ≤ level) :
    walkIForest st (Forest.ofList [.heading level Forest.nil, .textNode s]) =
      { st with afterOption := false } ∧
    walkINode st (.heading level (Forest.ofList [.textNode s])) =
      { st with afterOption := false } ∧
    (∀ level' : Nat,
      (walkINode st (.heading level' Forest.nil)).afterOption = true) := by
  have hn4 : ¬ level ≤ 4 := by omega
  refine ⟨?_, ?_, ?_⟩
  · simp [Forest.ofList, walkIForest, walkINode, hn4]
  · simp [Forest.ofList, walkIForest, walkINode, hn4]
  · intro level'
    by_cases h4 : level' ≤ 4 <;> simp [walkINode, walkIForest, h4]

/-- Witness for C10 at a concrete state with an open slide: the text node
following the childless level-5 heading vanishes. -/
theorem C10_witness :
    (5 ≤ 5 ∧
      walkIForest
          { slides := [], currentSlide := some { Title := "A", Content := "c" },
            count := 1, afterOption := false, images := [], imagesIndex := [] }
          (Forest.ofList [.heading 5 Forest.nil, .textNode "gone"]) =
        { slides := [], currentSlide := some { Title := "A", Content := "c" },
          count := 1, afterOption := false, images := [], imagesIndex := [] }) :=
  ⟨by decide,
    (C10_low_heading_suppresses_text
      { slides := [], currentSlide := some { Title := "A", Content := "c" },
        count := 1, afterOption := false, images := [], imagesIndex := [] }
      5 "gone" (by decide)).1⟩

/- Qualifying-heading detector: a heading of level 1–4 anywhere in the
subtree (the headings the segmenters turn into slide titles). -/
mutual
def nodeHasQualHeading : Node → Bool
  | .document cs => forestHasQualHeading cs
  | .heading level cs => decide (level ≤ 4) || forestHasQualHeading cs
  | .paragraph cs => forestHasQualHeading cs
  | .textBlock cs => forestHasQualHeading cs
  | .textNode _ => false
  | .stringNode _ => false
  | .rawHTML _ => false
  | .htmlBlock _ => false
  | .listNode cs => forestHasQualHeading cs
  | .listItem cs => forestHasQualHeading cs
  | .codeBlock _ => false
  | .codeSpan _ => false
  | .fencedCodeBlock _ => false
  | .image _ cs => forestHasQualHeading cs
  | .link _ cs => forestHasQualHeading cs
  | .autoLink _ => false
def forestHasQualHeading : Forest → Bool
  | .nil => false
  | .cons n rest => nodeHasQualHeading n || forestHasQualHeading rest
end

mutual
theorem walkINode_noQual (n : Node) (st : IState)
    (hq : nodeHasQualHeading n = false) (hc : st.currentSlide = none) :
    (walkINode st n).slides = st.slides ∧ (walkINode st n).currentSlide = none := by
  cases n with
  | document cs => exact walkIForest_noQual cs st (by simpa [nodeHasQualHeading] using hq) hc
  | heading level cs =>
    simp only [nodeHasQualHeading, Bool.or_eq_false_iff, decide_eq_false_iff_not] at hq
    simp only [walkINode, if_neg hq.1]
    exact walkIForest_noQual cs { st with afterOption := true } hq.2 hc
  | paragraph cs => exact walkIForest_noQual cs st (by simpa [nodeHasQualHeading] using hq) hc
  | textBlock cs =>
    simp only [nodeHasQualHeading] at hq
    simp only [walkINode]
    by_cases hflag : st.afterOption
    · simp only [hflag, if_true]
      exact walkIForest_noQual cs { st with afterOption := false } hq hc
    · simp only [hflag, if_false]
      by_cases hqi : isQiitaBlock (extractTextForest cs)
      · simp [hqi, hc, addContent]
      · simp only [hqi, if_false]
        exact walkIForest_noQual cs _ hq (by simp [hc, addContent])
  | textNode s =>
    simp only [walkINode]
    by_cases hflag : st.afterOption
    · simp [hflag, hc]
    · by_cases hqi : isQiitaBlock s <;> simp [hflag, hqi, hc, addContent]
  | stringNode s => exact ⟨rfl, hc⟩
  | rawHTML s => simp [walkINode, hc, addContent]
  | htmlBlock s => simp [walkINode, hc, addContent]
  | listNode cs => exact walkIForest_noQual cs st (by simpa [nodeHasQualHeading] using hq) hc
  | listItem cs =>
    simp only [walkINode, hc, Option.isSome_none, Bool.false_eq_true, if_false]
    exact walkIForest_noQual cs st (by simpa [nodeHasQualHeading] using hq) hc
  | codeBlock s => simp [walkINode, hc, addContent]
  | codeSpan s => simp [walkINode, hc, addContent]
  | fencedCodeBlock s => simp [walkINode, hc, addContent]
  | image dest cs =>
    simp only [walkINode, hc, Option.isSome_none, Bool.false_eq_true, if_false]
    exact walkIForest_noQual cs st (by simpa [nodeHasQualHeading] using hq) hc
  | link dest cs =>
    simp only [walkINode, hc, Option.isSome_none, Bool.false_eq_true, if_false]
    exact walkIForest_noQual cs st (by simpa [nodeHasQualHeading] using hq) hc
  | autoLink url => simp [walkINode, hc]

theorem walkIForest_noQual (f : Forest) (st : IState)
    (hq : forestHasQualHeading f = false) (hc : st.currentSlide = none) :
    (walkIForest st f).slides = st.slides ∧ (walkIForest st f).currentSlide = none := by
  cases f with
  | nil => exact ⟨rfl, hc⟩
  | cons n rest =>
    simp only [forestHasQualHeading, Bool.or_eq_false_iff] at hq
    have h1 := walkINode_noQual n st hq.1 hc
    have h2 := walkIForest_noQual rest (walkINode st n) hq.2 h1.2
    exact ⟨h2.1.trans h1.1, h2.2⟩
end

mutual
theorem walkBNode_noQual (n : Node) (st : BState)
    (hq : nodeHasQualHeading n = false) (hc : st.currentSlide = none) :
    (walkBNode st n).slides = st.slides ∧ (walkBNode st n).currentSlide = none := by
  cases n with
  | document cs => exact walkBForest_noQual cs st (by simpa [nodeHasQualHeading] using hq) hc
  | heading level cs =>
    simp only [nodeHasQualHeading, Bool.or_eq_false_iff, decide_eq_false_iff_not] at hq
    simp only [walkBNode, if_neg hq.1]
    exact walkBForest_noQual cs st hq.2 hc
  | paragraph cs =>
    simp only [nodeHasQualHeading] at hq
    simp only [walkBNode]
    by_cases hqi : isQiitaBlock (if st.afterList then "" else extractTextForest cs)
    · simp [hqi, hc, addContent]
    · simp only [hqi, if_false]
      exact walkBForest_noQual cs _ hq (by simp [hc, addContent])
  | textBlock cs =>
    simp only [nodeHasQualHeading] at hq
    simp only [walkBNode]
    by_cases hqi : isQiitaBlock (if st.afterList then "" else extractTextForest cs)
    · simp [hqi, hc, addContent]
    · simp only [hqi, if_false]
      exact walkBForest_noQual cs _ hq (by simp [hc, addContent])
  | textNode s =>
    simp only [walkBNode]
    by_cases hqi : isQiitaBlock (if st.afterList then "" else s) <;>
      simp [hqi, hc, addContent]
  | stringNode s => exact ⟨rfl, hc⟩
  | rawHTML s => simp [walkBNode, hc, addContent]
  | htmlBlock s => simp [walkBNode, hc, addContent]
  | listNode cs => exact walkBForest_noQual cs st (by simpa [nodeHasQualHeading] using hq) hc
  | listItem cs =>
    simp only [walkBNode, hc, Option.isSome_none, Bool.false_eq_true, if_false]
    exact walkBForest_noQual cs st (by simpa [nodeHasQualHeading] using hq) hc
  | codeBlock s => simp [walkBNode, hc, addContent]
  | codeSpan s => simp [walkBNode, hc, addContent]
  | fencedCodeBlock s => simp [walkBNode, hc, addContent]
  | image dest cs =>
    simp only [walkBNode, hc, Option.isSome_none, Bool.false_eq_true, if_false]
    exact walkBForest_noQual cs st (by simpa [nodeHasQualHeading] using hq) hc
  | link dest cs =>
    simp only [walkBNode, hc, Option.isSome_none, Bool.false_eq_true, if_false]
    exact walkBForest_noQual cs st (by simpa [nodeHasQualHeading] using hq) hc
  | autoLink url => simp [walkBNode, hc]

theorem walkBForest_noQual (f : Forest) (st : BState)
    (hq : forestHasQualHeading f = false) (hc : st.currentSlide = none) :
    (walkBForest st f).slides = st.slides ∧ (walkBForest st f).currentSlide = none := by
  cases f with
  | nil => exact ⟨rfl, hc⟩
  | cons n rest =>
    simp only [forestHasQualHeading, Bool.or_eq_false_iff] at hq
    have h1 := walkBNode_noQual n st hq.1 hc
    have h2 := walkBForest_noQual rest (walkBNode st n) hq.2 h1.2
    exact ⟨h2.1.trans h1.1, h2.2⟩
end

/-- C9: a document containing no heading of level 1–4 produces an empty slide
sequence in both versions of the segmenter — `currentSlide` is never opened,
so every content-appending branch is a no-op and no block content is ever
attached to any slide. -/
theorem C9_no_heading_no_slides (doc : Node)
    (hq : nodeHasQualHeading doc = false) :
    slidesIndev doc = [] ∧ slidesB doc = [] := by
  constructor
  · have h := walkINode_noQual doc initIState hq rfl
    simp only [slidesIndev, parseMarkdownIndev, IState.finalSlides]
    rw [h.1, h.2]
    rfl
  · have h := walkBNode_noQual doc initBState hq rfl
    simp only [slidesB, parseMarkdownB, BState.finalSlides]
    rw [h.1, h.2]
    rfl

/-- C9 witness: a document with a paragraph, a level-5 heading and a code
block (no qualifying heading) yields zero slides in both versions. -/
theorem C9_witness :
    nodeHasQualHeading
        (.document (Forest.ofList
          [ .paragraph (Forest.ofList [.textNode "intro text"]),
            .heading 5 (Forest.ofList [.textNode "deep"]),
            .codeBlock "x := 1" ])) = false ∧
    slidesIndev
        (.document (Forest.ofList
          [ .paragraph (Forest.ofList [.textNode "intro text"]),
            .heading 5 (Forest.ofList [.textNode "deep"]),
            .codeBlock "x := 1" ])) = [] ∧
    slidesB
        (.document (Forest.ofList
          [ .paragraph (Forest.ofList [.textNode "intro text"]),
            .heading 5 (Forest.ofList [.textNode "deep"]),
            .codeBlock "x := 1" ])) = [] := by
  refine ⟨by decide, ?_⟩
  have h := C9_no_heading_no_slides
    (.document (Forest.ofList
      [ .paragraph (Forest.ofList [.textNode "intro text"]),
        .heading 5 (Forest.ofList [.textNode "deep"]),
        .codeBlock "x := 1" ])) (by decide)
  exact ⟨h.1, h.2⟩

/-- The per-slide goroutine body of `analyzeContentWithGemini` (identical in
both versions up to the prompt text): `oracle i` models the outcome of
`model.GenerateContent` for the slide at global index `i` — `.error` for a
failed request (the goroutine logs and returns without writing), `.ok parts`
for a response whose parts are assigned to `slide.Content` in order via
`fmt.Sprintln`, so the content ends as the last part plus a newline. -/
def summarizeSlide (oracle : Nat → Except String (List String)) (i : Nat)
    (s : Slide) : Slide :=
  match oracle i with
  | .error _ => s
  | .ok parts =>
    parts.foldl (fun acc part => { acc with Content := part ++ "\n" }) s

/-- One batch of concurrent summarizations after its `wg.Wait()` join: batch
`j` is the slice `slides[j*sz : j*sz+sz]` of the main slide array (the slices
in `slide_parts` alias it), so the joined state updates exactly the slides
with global index `j*sz ≤ i < j*sz + sz`; each goroutine writes only its own
slide. -/
def applyBatchAux (oracle : Nat → Except String (List String)) (sz j : Nat) :
    Nat → List Slide → List Slide
  | _, [] => []
  | i, s :: rest =>
    (if j * sz ≤ i ∧ i < j * sz + sz then summarizeSlide oracle i s else s) ::
      applyBatchAux oracle sz j (i + 1) rest

def applyBatch (oracle : Nat → Except String (List String)) (sz j : Nat)
    (slides : List Slide) : List Slide :=
  applyBatchAux oracle sz j 0 slides

/-- The image-reattachment loop run after every batch: walk ALL slides with
0-based position `i` and counter `image_counter`; whenever `i+1` occurs in
`images_index`, append `fmt.Sprintln(images[image_counter])` to that slide's
content and advance the counter.  (`images.getD counter ""` models
`images[image_counter]`; when `images` and `images_index` come from the
segmenter the counter stays within bounds, where Go would otherwise panic.) -/
def reattachGo (images : List String) (idxs : List Int) :
    Nat → Nat → List Slide → List Slide
  | _, _, [] => []
  | counter, i, s :: rest =>
    if ((i : Int) + 1) ∈ idxs then
      { s with Content := s.Content ++ images.getD counter "" ++ "\n" } ::
        reattachGo images idxs (counter + 1) (i + 1) rest
    else s :: reattachGo images idxs counter (i + 1) rest

/-- `math.Ceil(float64(n) / float64(sz))` — exact on the integers involved,
modelled as Nat ceiling division. -/
def ceilDiv (n sz : Nat) : Nat := (n + sz - 1) / sz

/-- Number of iterations of the batch loop: `len(slides) > s_size` gives the
ceiling, otherwise the single batch `slides[0:]`. -/
def numBatches (n sz : Nat) : Nat := if n > sz then ceilDiv n sz else 1

/-- `slide_parts`, the batch partition built by `analyzeContentWithGemini`
(`s_size` is 13 in the indev version, 15 in part_000): when `len(slides) >
s_size`, block `i` is `slides[i*s_size : min(i*s_size+s_size, len)]`;
otherwise the single batch `slides[0:]`. -/
def makeBatches (slides : List Slide) (sz : Nat) : List (List Slide) :=
  if slides.length > sz then
    (List.range (ceilDiv slides.length sz)).map fun i =>
      (slides.drop (i * sz)).take sz
  else [slides]

/-- Slide-list state after the first `t` iterations of the batch loop (each
iteration: launch the batch's goroutines, `wg.Wait()`, the fixed sleep —
untimed here — then the reattachment pass over ALL slides). -/
def analyzeTrace (oracle : Nat → Except String (List String))
    (images : List String) (idxs : List Int) (sz : Nat)
    (slides : List Slide) (t : Nat) : List Slide :=
  (List.range t).foldl
    (fun cur j => reattachGo images idxs 0 0 (applyBatch oracle sz j cur)) slides

/-- `analyzeContentWithGemini`: run every batch and return `(slides, nil)`;
the error result is always `nil` — per-slide failures are only logged. -/
def analyzeContentWithGemini (oracle : Nat → Except String (List String))
    (images : List String) (idxs : List Int) (sz : Nat)
    (slides : List Slide) : List Slide × Option String :=
  (analyzeTrace oracle images idxs sz slides (numBatches slides.length sz), none)

theorem flatten_range_chunks (l : List Slide) (sz n : Nat) :
    ((List.range n).map fun i => (l.drop (i * sz)).take sz).flatten =
      l.take (n * sz) := by
  induction n with
  | zero => simp
  | succ n ih =>
    rw [List.range_succ, List.map_append, List.flatten_append]
    simp only [List.map_cons, List.map_nil, List.flatten_cons, List.flatten_nil,
      List.append_nil, ih]
    rw [Nat.succ_mul, List.take_add]

theorem makeBatches_flatten (slides : List Slide) (sz : Nat) (hsz : 0 < sz) :
    (makeBatches slides sz).flatten = slides := by
  rw [makeBatches]
  by_cases h : slides.length > sz
  · rw [if_pos h, flatten_range_chunks]
    apply List.take_of_length_le
    rw [ceilDiv, Nat.mul_comm]
    have hd := Nat.div_add_mod (slides.length + sz - 1) sz
    have hm := Nat.mod_lt (slides.length + sz - 1) hsz
    omega
  · rw [if_neg h]
    simp

theorem makeBatches_size_le (slides : List Slide) (sz : Nat)
    (b : List Slide) (hb : b ∈ makeBatches slides sz) : b.length ≤ sz := by
  rw [makeBatches] at hb
  by_cases h : slides.length > sz
  · rw [if_pos h] at hb
    simp only [List.mem_map, List.mem_range] at hb
    obtain ⟨i, _, rfl⟩ := hb
    simp
  · rw [if_neg h] at hb
    simp only [List.mem_singleton] at hb
    subst hb
    omega

/-- C5: the batch partition is a list of contiguous slices whose concatenation
is the original slide sequence (every slide covered exactly once, order
preserved across batch boundaries), and every batch is at most `s_size` slides
— 13 in the indev version, 15 in part_000. -/
theorem C5_batches_partition (slides : List Slide) :
    ((makeBatches slides 13).flatten = slides ∧
      ∀ b ∈ makeBatches slides 13, b.length ≤ 13) ∧
    ((makeBatches slides 15).flatten = slides ∧
      ∀ b ∈ makeBatches slides 15, b.length ≤ 15) :=
  ⟨⟨makeBatches_flatten slides 13 (by omega),
      fun b hb => makeBatches_size_le slides 13 b hb⟩,
    ⟨makeBatches_flatten slides 15 (by omega),
      fun b hb => makeBatches_size_le slides 15 b hb⟩⟩

theorem applyBatchAux_get? (oracle : Nat → Except String (List String))
    (sz j : Nat) (l : List Slide) :
    ∀ i0 d, (applyBatchAux oracle sz j i0 l).get? d =
      (l.get? d).map fun s =>
        if j * sz ≤ i0 + d ∧ i0 + d < j * sz + sz then
          summarizeSlide oracle (i0 + d) s
        else s := by
  induction l with
  | nil => intro i0 d; simp [applyBatchAux]
  | cons s rest ih =>
    intro i0 d
    cases d with
    | zero => simp [applyBatchAux]
    | succ d =>
      simp only [applyBatchAux, List.get?_cons_succ]
      rw [ih (i0 + 1) d]
      have : i0 + 1 + d = i0 + (d + 1) := by omega
      rw [this]

/-- C7: a failed per-slide request writes nothing — after its batch's join the
failing slide equals its value at the time of the failure (first conjunct:
the goroutine body returns the slide unchanged on error; second conjunct: the
state after any batch join is unchanged at a failing index) — and the failure
is not surfaced: `analyzeContentWithGemini` always returns a `nil` error. -/
theorem C7_failure_leaves_slide_unchanged
    (oracle : Nat → Except String (List String)) (images : List String)
    (idxs : List Int) (sz j i : Nat) (slides : List Slide) (s : Slide)
    (msg : String) (hfail : oracle i = .error msg) :
    summarizeSlide oracle i s = s ∧
    (applyBatch oracle sz j slides).get? i = slides.get? i ∧
    (analyzeContentWithGemini oracle images idxs sz slides).2 = none := by
  refine ⟨by simp [summarizeSlide, hfail], ?_, rfl⟩
  rw [applyBatch, applyBatchAux_get? oracle sz j slides 0 i]
  cases hg : slides.get? i with
  | none => rfl
  | some x => simp [summarizeSlide, hfail]

/-- C7 witness: with an always-failing oracle, slide 0 of a one-slide batch is
untouched and no error is surfaced. -/
theorem C7_witness :
    (fun _ : Nat => (Except.error "boom" : Except String (List String))) 0 =
        .error "boom" ∧
    summarizeSlide (fun _ => .error "boom") 0
        { Title := "T", Content := "c" } = { Title := "T", Content := "c" } ∧
    (applyBatch (fun _ => .error "boom") 13 0
        [{ Title := "T", Content := "c" }]).get? 0 =
      [{ Title := "T", Content := "c" }].get? 0 ∧
    (analyzeContentWithGemini (fun _ => .error "boom") [] [] 13
        [{ Title := "T", Content := "c" }]).2 = none := by
  refine ⟨rfl, ?_⟩
  have h := C7_failure_leaves_slide_unchanged (fun _ => .error "boom") [] [] 13 0 0
    [{ Title := "T", Content := "c" }] { Title := "T", Content := "c" } "boom" rfl
  exact ⟨h.1, h.2.1, h.2.2⟩

/-- 0-based batch index of the slide at 0-based position `i`:
`slides[i]` lies in `slide_parts[i / s_size]`. -/
def slideBatchIndex (sz i : Nat) : Nat := i / sz

/-- Value of `image_counter` when the reattachment loop, started at position
`i0`, reaches position `i0 + d`: the number of matched positions in between. -/
def rankSeg (idxs : List Int) (i0 : Nat) : Nat → Nat
  | 0 => 0
  | d + 1 => (if ((i0 : Int) + 1) ∈ idxs then 1 else 0) + rankSeg idxs (i0 + 1) d

theorem reattachGo_get? (images : List String) (idxs : List Int) :
    ∀ (l : List Slide) (c i0 d : Nat) (s : Slide),
      (((i0 + d : Nat) : Int) + 1) ∈ idxs → l.get? d = some s →
      (reattachGo images idxs c i0 l).get? d =
        some { s with Content :=
          s.Content ++ images.getD (c + rankSeg idxs i0 d) "" ++ "\n" } := by
  intro l
  induction l with
  | nil => intro c i0 d s _ hget; simp at hget
  | cons x rest ih =>
    intro c i0 d s hmatch hget
    cases d with
    | zero =>
      obtain rfl : x = s := by simpa using hget
      have h0 : ((i0 : Int) + 1) ∈ idxs := by simpa using hmatch
      simp [reattachGo, h0, rankSeg]
    | succ d =>
      have hm' : (((i0 + 1 + d : Nat) : Int) + 1) ∈ idxs := by
        have : i0 + 1 + d = i0 + (d + 1) := by omega
        rw [this]; exact hmatch
      have hget' : rest.get? d = some s := by simpa using hget
      by_cases h0 : ((i0 : Int) + 1) ∈ idxs
      · simp only [reattachGo, if_pos h0, List.get?_cons_succ]
        rw [ih (c + 1) (i0 + 1) d s hm' hget']
        have : c + 1 + rankSeg idxs (i0 + 1) d = c + rankSeg idxs i0 (d + 1) := by
          simp [rankSeg, h0]; omega
        rw [this]
      · simp only [reattachGo, if_neg h0, List.get?_cons_succ]
        rw [ih c (i0 + 1) d s hm' hget']
        have : c + rankSeg idxs (i0 + 1) d = c + rankSeg idxs i0 (d + 1) := by
          simp [rankSeg, h0]
        rw [this]

theorem analyzeTrace_succ (oracle : Nat → Except String (List String))
    (images : List String) (idxs : List Int) (sz : Nat) (slides : List Slide)
    (t : Nat) :
    analyzeTrace oracle images idxs sz slides (t + 1) =
      reattachGo images idxs 0 0
        (applyBatch oracle sz t (analyzeTrace oracle images idxs sz slides t)) := by
  rw [analyzeTrace, analyzeTrace, List.range_succ, List.foldl_append]
  rfl

/-- The property claim C1 asserts, stated for the indev pipeline
(`s_size = 13`): an image recorded with heading index `k` does not occur in
the content of the slide at 1-based position `k` in any state reached while
the batch containing that slide (`slideBatchIndex 13 (k-1)`) has not yet
completed its join — i.e. after `t` loop iterations for any
`t ≤ slideBatchIndex 13 (k-1)`. -/
def claimC1 : Prop :=
  ∀ (doc : Node) (oracle : Nat → Except String (List String)) (m : Nat)
    (k : Int) (t : Nat),
    (parseMarkdownIndev doc).imagesIndex.get? m = some k →
    t ≤ slideBatchIndex 13 (k - 1).toNat →
    containsSub
      (((analyzeTrace oracle (parseMarkdownIndev doc).images
            (parseMarkdownIndev doc).imagesIndex 13 (slidesIndev doc) t).getD
          (k - 1).toNat default).Content).data
      (((parseMarkdownIndev doc).images.getD m "").data) = false

/-- A 14-slide document (two batches at `s_size = 13`) whose one image sits
under the 14th heading, i.e. in the second batch. -/
def docC1 : Node :=
  .document (Forest.ofList
    (List.replicate 14 (Node.heading 1 (Forest.ofList [Node.textNode "T"])) ++
      [Node.paragraph (Forest.ofList [Node.image "u" Forest.nil])]))

/-- C1 counterexample: with 14 slides the image recorded for slide 14 (second
batch) is already present in slide 14's content after the FIRST batch's join
— the reattachment pass after each batch scans all slides, so the image is
appended before the batch containing its slide completes. -/
theorem C1_counterexample : ¬ claimC1 := by
  intro h
  have h2 := h docC1 (fun _ => .error "e") 0 14 1 (by decide) (by decide)
  exact absurd h2 (by decide)

/-- C1 (amended): the reattachment pass runs after EVERY batch's join over ALL
slides, so an image whose recorded index matches a slide's 1-based position is
appended to that slide after every loop iteration — including iterations whose
batch does not contain the slide, i.e. possibly before the slide's own batch
completes (the slide's own summarization later overwrites the content, and the
image is appended again after each subsequent batch).  Precisely: if after
iteration `t`'s join the matching slide at 0-based position `i` is `s`, then
after iteration `t+1` it is `s` with `images[counter]` (at the counter value
reached at position `i`) plus a newline appended. -/
theorem C1_reattachment_every_batch (oracle : Nat → Except String (List String))
    (images : List String) (idxs : List Int) (sz : Nat) (slides : List Slide)
    (t i : Nat) (s : Slide) (hmatch : ((i : Int) + 1) ∈ idxs)
    (hget : (applyBatch oracle sz t
        (analyzeTrace oracle images idxs sz slides t)).get? i = some s) :
    (analyzeTrace oracle images idxs sz slides (t + 1)).get? i =
      some { s with Content :=
        s.Content ++ images.getD (rankSeg idxs 0 i) "" ++ "\n" } := by
  rw [analyzeTrace_succ]
  have hm : (((0 + i : Nat) : Int) + 1) ∈ idxs := by simpa using hmatch
  have := reattachGo_get? images idxs
    (applyBatch oracle sz t (analyzeTrace oracle images idxs sz slides t))
    0 0 i s hm hget
  simpa using this

/-- C1 witness: a single slide whose image is recorded (index 1), with a
failing oracle: after the first iteration the image markup is appended. -/
theorem C1_witness :
    ((((0 : Nat) : Int) + 1) ∈ [(1 : Int)] ∧
      (applyBatch (fun _ => .error "e") 13 0
          (analyzeTrace (fun _ => .error "e") ["IMG"] [1] 13
            [{ Title := "A", Content := "x" }] 0)).get? 0 =
        some { Title := "A", Content := "x" }) ∧
    (analyzeTrace (fun _ => .error "e") ["IMG"] [1] 13
        [{ Title := "A", Content := "x" }] 1).get? 0 =
      some { Title := "A", Content := "x" ++ "IMG" ++ "\n" } := by
  refine ⟨⟨by decide, by decide⟩, ?_⟩
  exact C1_reattachment_every_batch (fun _ => .error "e") ["IMG"] [1] 13
    [{ Title := "A", Content := "x" }] 0 0 { Title := "A", Content := "x" }
    (by decide) (by decide)

/-- The literal `<style scoped>...</style>` tag of the indev renderer. -/
def styleTag : String :=
  "<style scoped>section\x7bfont-size:50px;text-align:center\x7d</style>"

/-- `convertToMarp` of `src/indev/main.go`.  `styles.ThemeList[style]` comes
from the `styles` package, which is not under `src/`; it is modelled as an
arbitrary `theme` string parameter.  The sequence of `WriteString` calls is
one concatenation; the per-slide writes are grouped per iteration. -/
def convertToMarpIndev (slides : List Slide) (title : String) (theme : String) :
    String :=
  "---\nmarp: true" ++ theme ++ "---\n# " ++ title ++ "\n" ++ styleTag ++
    slides.foldl
      (fun acc s => acc ++ ("\n---\n" ++ ("# " ++ s.Title ++ "\n\n") ++ (s.Content ++ "\n")))
      ""

/-- `convertToMarp` of `src/unnamed/part_000`. -/
def convertToMarpB (slides : List Slide) : String :=
  "---\nmarp: true\n" ++
    slides.foldl
      (fun acc s => acc ++ ("---\n" ++ ("# " ++ s.Title ++ "\n\n") ++ (s.Content ++ "\n")))
      ""

/-- ASCII letter or digit: the first character of a line that can only be
ordinary paragraph text in the GFM block grammar. -/
def isAlnum (c : Char) : Bool := c.isAlpha || c.isDigit

/-- Block kind of one line of a rendered document. -/
inductive LineKind where
  | blank
  | atx (lv : Nat) (title : List Char)
  | underline
  | html
  | plain
deriving DecidableEq, Repr

/-- Modelled from the spec: how the external GFM parser (spec §6) classifies
one line of the rendered document, restricted to the line shapes the two
renderers emit and the round-trip hypotheses admit: blank lines; ATX heading
lines (one to six `#` then a space, or end of line); lines consisting only of
`-` or only of `=`, which are setext heading underlines when a paragraph is
open and thematic breaks otherwise (setext takes precedence, per GFM); lines
starting with `<` (HTML blocks — the only such line in the renders is the
one-line `<style>` tag, a type-1 block that closes on its own line);
everything else is paragraph text.  Block constructs outside this set (lists,
block quotes, fenced or indented code, link reference definitions) are
excluded by the hypotheses, which only admit paragraph lines starting with an
ASCII letter or digit. -/
def classifyLine (l : List Char) : LineKind :=
  if trimChars l = [] then .blank
  else
    let lv := (l.takeWhile (· = '#')).length
    if 1 ≤ lv ∧ lv ≤ 6 ∧ ((l.drop lv).head? = some ' ' ∨ l.drop lv = []) then
      .atx lv (trimChars (l.drop lv))
    else if l.all (· = '-') ∨ l.all (· = '=') then .underline
    else if l.head? = some '<' then .html
    else .plain

/-- Modelled from the spec: the titles the segmenter recovers from the
re-parsed document — a fold over the lines carrying the open paragraph (its
lines concatenated, as `extractText` concatenates the heading's text nodes).
ATX headings of level ≤ 4 and setext headings (an underline after an open
paragraph; level 1 or 2, both ≤ 4) become titles; blank, HTML and
thematic-break lines close the paragraph without one. -/
def setextFold (para : Option (List Char)) : List (List Char) → List (List Char)
  | [] => []
  | l :: rest =>
    match classifyLine l with
    | .blank => setextFold none rest
    | .atx lv t =>
      if lv ≤ 4 then t :: setextFold none rest else setextFold none rest
    | .underline =>
      match para with
      | some p => trimChars p :: setextFold none rest
      | none => setextFold none rest
    | .html => setextFold none rest
    | .plain => setextFold (some (para.getD [] ++ l)) rest

/-- Modelled from the spec: the ordered sequence of slide titles recovered by
re-parsing a rendered document with the segmenter. -/
def reparsedTitles (doc : String) : List String :=
  (setextFold none (splitNl doc.data)).map fun l => String.mk l

/-- A content line that is blank or plain paragraph text. -/
def isPlainLine (l : List Char) : Bool :=
  match l with
  | [] => true
  | c :: _ => isAlnum c

/-- A round-trippable title: single-line, already trimmed, and `#`-free (so
the line `"# " ++ title` re-parses to exactly `title`, with no
closing-sequence stripping). -/
def goodTitleS (t : String) : Prop :=
  '\n' ∉ t.data ∧ trimChars t.data = t.data ∧ '#' ∉ t.data

/-- A round-trippable slide: a good title, and content whose every line is
blank or starts with an ASCII letter or digit, and whose last split piece is
blank (the content is empty or ends with a newline) — so no content
paragraph abuts the `---` separator of the following slide and turns into a
setext heading. -/
def goodSlideS (s : Slide) : Prop :=
  goodTitleS s.Title ∧
  (∀ l ∈ splitNl s.Content.data, isPlainLine l = true) ∧
  (splitNl s.Content.data).getLast? = some []

instance : DecidablePred goodTitleS := fun t => by
  unfold goodTitleS; infer_instance

instance : DecidablePred goodSlideS := fun s => by
  unfold goodSlideS; infer_instance

/-- The character list a single slide contributes to the part_000 render. -/
def chunkB (s : Slide) : List Char :=
  '-' :: '-' :: '-' :: '\n' ::
    (('#' :: ' ' :: s.Title.data) ++ '\n' :: '\n' :: (s.Content.data ++ ['\n']))

/-- The character list a single slide contributes to the indev render. -/
def chunkI (s : Slide) : List Char := '\n' :: chunkB s

theorem chunkB_data (s : Slide) :
    ("---\n" ++ ("# " ++ s.Title ++ "\n\n") ++ (s.Content ++ "\n")).data = chunkB s := by
  simp [String.data_append, chunkB]

theorem chunkI_data (s : Slide) :
    ("\n---\n" ++ ("# " ++ s.Title ++ "\n\n") ++ (s.Content ++ "\n")).data = chunkI s := by
  simp [String.data_append, chunkI, chunkB]

theorem foldl_builder_data (g : Slide → String) :
    ∀ (slides : List Slide) (x : String),
      (slides.foldl (fun acc s => acc ++ g s) x).data =
        x.data ++ (slides.map fun s => (g s).data).flatten := by
  intro slides
  induction slides with
  | nil => intro x; simp
  | cons s rest ih =>
    intro x
    simp only [List.foldl_cons, ih (x ++ g s), String.data_append,
      List.map_cons, List.flatten_cons, List.append_assoc]

theorem trimChars_cons_space (l : List Char) : trimChars (' ' :: l) = trimChars l := by
  simp [trimChars, List.dropWhile_cons, goIsSpace]

theorem splitNl_cons_nl (w : List Char) : splitNl ('\n' :: w) = [] :: splitNl w := by
  simp [splitNl]

/-- Splitting one slide chunk followed by a remainder: the separator line, the
ATX title line, a blank line, then the content lines, then the remainder. -/
theorem splitNl_chunkB (s : Slide) (R : List Char) (hT : '\n' ∉ s.Title.data) :
    splitNl (chunkB s ++ R) =
      [['-', '-', '-'], '#' :: ' ' :: s.Title.data, []] ++
        splitNl s.Content.data ++ splitNl R := by
  have hline : '\n' ∉ '#' :: ' ' :: s.Title.data := by
    simp only [List.mem_cons]
    rintro (h | h | h)
    · exact absurd h (by decide)
    · exact absurd h (by decide)
    · exact hT h
  have e : chunkB s ++ R =
      ['-', '-', '-'] ++ '\n' :: (('#' :: ' ' :: s.Title.data) ++
        '\n' :: '\n' :: (s.Content.data ++ '\n' :: R)) := by
    simp [chunkB]
  rw [e, splitNl_append_cons, splitNl_append_cons,
    splitNl_single (by decide : '\n' ∉ ['-', '-', '-']),
    splitNl_single hline, splitNl_cons_nl, splitNl_append_cons]
  simp

theorem alnum_not_space (c : Char) (h : isAlnum c = true) : goIsSpace c = false := by
  cases hg : goIsSpace c
  · rfl
  · exfalso
    have hc : c = ' ' ∨ c = '\t' ∨ c = '\n' ∨ c = '\x0b' ∨ c = '\x0c' ∨
        c = '\r' ∨ c = '\x85' ∨ c = '\xa0' := by
      simpa [goIsSpace, or_assoc] using hg
    rcases hc with rfl | rfl | rfl | rfl | rfl | rfl | rfl | rfl <;>
      exact absurd h (by decide)

theorem trimChars_cons_ne_nil (c : Char) (x : List Char)
    (hc : goIsSpace c = false) : trimChars (c :: x) ≠ [] := by
  rw [trimChars_eq_rdropWhile]
  have hd : (c :: x).dropWhile goIsSpace = c :: x := by
    simp [List.dropWhile_cons, hc]
  rw [hd]
  intro hnil
  rw [List.rdropWhile_eq_nil_iff] at hnil
  exact absurd (hnil c (List.mem_cons_self c x)) (by simp [hc])

theorem classify_nil : classifyLine [] = .blank := by decide

theorem classify_dashes : classifyLine ['-', '-', '-'] = .underline := by decide

theorem classify_of_alnum (c : Char) (x : List Char) (h : isAlnum c = true) :
    classifyLine (c :: x) = .plain := by
  have hs := alnum_not_space c h
  have h1 : trimChars (c :: x) ≠ [] := trimChars_cons_ne_nil c x hs
  have hsharp : ¬c = '#' := by intro hc; subst hc; exact absurd h (by decide)
  have hdash : ¬c = '-' := by intro hc; subst hc; exact absurd h (by decide)
  have heqc : ¬c = '=' := by intro hc; subst hc; exact absurd h (by decide)
  have hlt : ¬c = '<' := by intro hc; subst hc; exact absurd h (by decide)
  rw [classifyLine, if_neg h1]
  have htw : (c :: x).takeWhile (· = '#') = [] := by
    simp [List.takeWhile_cons, hsharp]
  simp [htw, List.all_cons, hdash, heqc, hlt]

theorem classify_sharp_space (T : List Char) :
    classifyLine ('#' :: ' ' :: T) = .atx 1 (trimChars T) := by
  have h1 : trimChars ('#' :: ' ' :: T) ≠ [] :=
    trimChars_cons_ne_nil '#' _ (by decide)
  have htw : ('#' :: ' ' :: T).takeWhile (· = '#') = ['#'] := by
    simp [List.takeWhile_cons]
  rw [classifyLine, if_neg h1]
  simp [htw, trimChars_cons_space]

theorem setextFold_cons_blank (st : Option (List Char)) {l : List Char}
    (h : classifyLine l = .blank) (rest : List (List Char)) :
    setextFold st (l :: rest) = setextFold none rest := by
  simp [setextFold, h]

theorem setextFold_cons_plain (st : Option (List Char)) {l : List Char}
    (h : classifyLine l = .plain) (rest : List (List Char)) :
    setextFold st (l :: rest) = setextFold (some (st.getD [] ++ l)) rest := by
  simp [setextFold, h]

theorem setextFold_cons_underline_none {l : List Char}
    (h : classifyLine l = .underline) (rest : List (List Char)) :
    setextFold none (l :: rest) = setextFold none rest := by
  simp [setextFold, h]

theorem setextFold_cons_underline_some (p : List Char) {l : List Char}
    (h : classifyLine l = .underline) (rest : List (List Char)) :
    setextFold (some p) (l :: rest) = trimChars p :: setextFold none rest := by
  simp [setextFold, h]

theorem setextFold_cons_atx (st : Option (List Char)) {l : List Char}
    {lv : Nat} {t : List Char} (h : classifyLine l = .atx lv t) (h4 : lv ≤ 4)
    (rest : List (List Char)) :
    setextFold st (l :: rest) = t :: setextFold none rest := by
  simp [setextFold, h, h4]

theorem setextFold_cons_html (st : Option (List Char)) {l : List Char}
    (h : classifyLine l = .html) (rest : List (List Char)) :
    setextFold st (l :: rest) = setextFold none rest := by
  simp [setextFold, h]

theorem setextFold_para_accum (M : List (List Char))
    (hM : ∀ l ∈ M, classifyLine l = .plain) :
    ∀ (p : List Char) (rest : List (List Char)),
      setextFold (some p) (M ++ rest) =
        setextFold (some (p ++ M.flatten)) rest := by
  induction M with
  | nil => intro p rest; simp
  | cons m M' ih =>
    intro p rest
    have hm := hM m (List.mem_cons_self m M')
    rw [List.cons_append, setextFold_cons_plain (some p) hm (M' ++ rest),
      show (some p).getD [] = p from rfl,
      ih (fun l hl => hM l (List.mem_cons_of_mem m hl)) (p ++ m) rest]
    simp [List.append_assoc]

theorem setextFold_para_start (M : List (List Char)) (hne : M ≠ [])
    (hM : ∀ l ∈ M, classifyLine l = .plain) (rest : List (List Char)) :
    setextFold none (M ++ rest) = setextFold (some M.flatten) rest := by
  cases M with
  | nil => exact absurd rfl hne
  | cons m M' =>
    have hm := hM m (List.mem_cons_self m M')
    rw [List.cons_append, setextFold_cons_plain none hm (M' ++ rest),
      show (none : Option (List Char)).getD [] = [] from rfl,
      setextFold_para_accum M' (fun l hl => hM l (List.mem_cons_of_mem m hl))
        ([] ++ m) rest]
    simp

theorem setextFold_content_skip :
    ∀ (P : List (List Char)), (∀ l ∈ P, isPlainLine l = true) →
      P.getLast? = some [] →
      ∀ (st : Option (List Char)) (rest : List (List Char)),
        setextFold st (P ++ rest) = setextFold none rest := by
  intro P
  induction P with
  | nil => intro _ hlast; simp at hlast
  | cons l P' ih =>
    intro hP hlast st rest
    cases P' with
    | nil =>
      have hl : l = [] := by simpa using hlast
      subst hl
      rw [List.cons_append, List.nil_append,
        setextFold_cons_blank st classify_nil rest]
    | cons l2 P'' =>
      have hlast' : (l2 :: P'').getLast? = some [] := by
        simpa [List.getLast?_cons_cons] using hlast
      have hl := hP l (List.mem_cons_self l (l2 :: P''))
      have hP'' : ∀ x ∈ l2 :: P'', isPlainLine x = true :=
        fun x hx => hP x (List.mem_cons_of_mem l hx)
      cases l with
      | nil =>
        rw [List.cons_append,
          setextFold_cons_blank st classify_nil ((l2 :: P'') ++ rest)]
        exact ih hP'' hlast' none rest
      | cons c x =>
        have hcl : classifyLine (c :: x) = .plain :=
          classify_of_alnum c x (by simpa [isPlainLine] using hl)
        rw [List.cons_append,
          setextFold_cons_plain st hcl ((l2 :: P'') ++ rest)]
        exact ih hP'' hlast' _ rest

/-- Processing the tail of one slide chunk (after its leading `---`): the ATX
title line emits the title, the blank line closes the paragraph, and the
content lines emit nothing and leave no open paragraph. -/
theorem setextFold_chunk_tail (s : Slide) (hs : goodSlideS s) (R : List Char) :
    setextFold none (('#' :: ' ' :: s.Title.data) :: [] ::
        (splitNl s.Content.data ++ splitNl R)) =
      s.Title.data :: setextFold none (splitNl R) := by
  have hcl : classifyLine ('#' :: ' ' :: s.Title.data) =
      .atx 1 s.Title.data := by
    rw [classify_sharp_space, hs.1.2.1]
  rw [setextFold_cons_atx none hcl (by omega) _,
    setextFold_cons_blank none classify_nil _,
    setextFold_content_skip (splitNl s.Content.data) hs.2.1 hs.2.2 none
      (splitNl R)]

/-- Processing one full slide chunk from a closed-paragraph state. -/
theorem setextFold_chunk (s : Slide) (hs : goodSlideS s) (R : List Char) :
    setextFold none (splitNl (chunkB s ++ R)) =
      s.Title.data :: setextFold none (splitNl R) := by
  rw [splitNl_chunkB s R hs.1.1]
  simp only [List.cons_append, List.nil_append, List.append_assoc]
  rw [setextFold_cons_underline_none classify_dashes _]
  exact setextFold_chunk_tail s hs R

/-- The part_000 chunk sequence: from a closed-paragraph state it yields
exactly the titles; from an open paragraph its first `---` first underlines
that paragraph into a setext heading (with no chunks, the open paragraph
stays open and yields nothing). -/
theorem chunksB_setext :
    ∀ (slides : List Slide), (∀ x ∈ slides, goodSlideS x) →
      (setextFold none (splitNl ((slides.map chunkB).flatten)) =
        slides.map fun x => x.Title.data) ∧
      (∀ p, setextFold (some p) (splitNl ((slides.map chunkB).flatten)) =
        if slides = [] then []
        else trimChars p :: slides.map fun x => x.Title.data) := by
  intro slides
  induction slides with
  | nil =>
    refine fun _ => ⟨?_, fun p => ?_⟩
    · simp [setextFold, classify_nil]
    · simp [setextFold, classify_nil]
  | cons s rest ih =>
    intro h
    have hs := h s (List.mem_cons_self s rest)
    have hrest : ∀ x ∈ rest, goodSlideS x :=
      fun x hx => h x (List.mem_cons_of_mem s hx)
    obtain ⟨ihn, _⟩ := ih hrest
    have e1 : ((s :: rest).map chunkB).flatten =
        chunkB s ++ (rest.map chunkB).flatten := by simp
    constructor
    · rw [e1, setextFold_chunk s hs _, ihn]
      simp
    · intro p
      rw [e1, splitNl_chunkB s _ hs.1.1]
      simp only [List.cons_append, List.nil_append, List.append_assoc]
      rw [setextFold_cons_underline_some p classify_dashes _,
        setextFold_chunk_tail s hs _, ihn]
      simp

/-- The indev chunk sequence (each chunk preceded by an extra newline) from a
closed-paragraph state yields exactly the titles. -/
theorem chunksI_setext :
    ∀ (slides : List Slide), (∀ x ∈ slides, goodSlideS x) →
      setextFold none (splitNl ((slides.map chunkI).flatten)) =
        slides.map fun x => x.Title.data := by
  intro slides
  induction slides with
  | nil => intro _; simp [setextFold, classify_nil]
  | cons s rest ih =>
    intro h
    have hs := h s (List.mem_cons_self s rest)
    have hrest : ∀ x ∈ rest, goodSlideS x :=
      fun x hx => h x (List.mem_cons_of_mem s hx)
    have e1 : ((s :: rest).map chunkI).flatten =
        '\n' :: (chunkB s ++ (rest.map chunkI).flatten) := by simp [chunkI]
    have e2 : splitNl ('\n' :: (chunkB s ++ (rest.map chunkI).flatten)) =
        [] :: splitNl (chunkB s ++ (rest.map chunkI).flatten) := by
      simp [splitNl]
    rw [e1, e2, setextFold_cons_blank none classify_nil _,
      setextFold_chunk s hs _, ih hrest]
    simp

theorem convertToMarpB_data (slides : List Slide) :
    (convertToMarpB slides).data =
      ['-', '-', '-'] ++ '\n' ::
        ("marp: true".data ++ '\n' :: (slides.map chunkB).flatten) := by
  rw [convertToMarpB, String.data_append, foldl_builder_data]
  rw [List.map_congr_left fun s _ => chunkB_data s]
  have e : ("---\nmarp: true\n").data =
      ['-', '-', '-'] ++ '\n' :: ("marp: true".data ++ ['\n']) := by decide
  rw [e]
  simp

theorem marpTrue_no_newline : '\n' ∉ ("marp: true").data := by decide

theorem splitNl_styleTag : splitNl styleTag.data = [styleTag.data] := by decide

theorem classify_marp : classifyLine ("marp: true").data = .plain := by decide

theorem classify_style : classifyLine styleTag.data = .html := by decide

theorem map_mk_titles (l : List Slide) :
    ((l.map fun x => x.Title.data).map fun d => String.mk d) =
      l.map Slide.Title := by
  induction l with
  | nil => rfl
  | cons s rest ih => rw [List.map_cons, List.map_cons, List.map_cons, ih]

/-- Re-parsing the part_000 render of a nonempty well-formed slide sequence:
the preamble's `marp: true` paragraph is underlined by the first slide's
`---` separator into a setext heading, followed by the slide titles. -/
theorem setext_convertToMarpB (slides : List Slide) (hne : slides ≠ [])
    (h : ∀ s ∈ slides, goodSlideS s) :
    reparsedTitles (convertToMarpB slides) =
      "marp: true" :: slides.map Slide.Title := by
  rw [reparsedTitles, convertToMarpB_data]
  have e1 : splitNl (['-', '-', '-'] ++ '\n' ::
      ("marp: true".data ++ '\n' :: (slides.map chunkB).flatten)) =
      ['-', '-', '-'] :: ("marp: true").data ::
        splitNl ((slides.map chunkB).flatten) := by
    rw [splitNl_append_cons, splitNl_append_cons,
      splitNl_single (by decide : '\n' ∉ ['-', '-', '-']),
      splitNl_single marpTrue_no_newline]
    rfl
  rw [e1, setextFold_cons_underline_none classify_dashes _,
    setextFold_cons_plain none classify_marp _]
  simp only [Option.getD_none, List.nil_append]
  rw [(chunksB_setext slides h).2 ("marp: true").data, if_neg hne,
    show trimChars ("marp: true").data = ("marp: true").data from by decide,
    List.map_cons, map_mk_titles]

theorem convertToMarpIndev_data (slides : List Slide) (title theme : String) :
    (convertToMarpIndev slides title theme).data =
      ['-', '-', '-'] ++ '\n' ::
        (("marp: true".data ++ theme.data ++ ['-', '-', '-']) ++ '\n' ::
          (('#' :: ' ' :: title.data) ++ '\n' ::
            (styleTag.data ++ (slides.map chunkI).flatten))) := by
  rw [convertToMarpIndev]
  rw [String.data_append, String.data_append, String.data_append,
    String.data_append, String.data_append, String.data_append,
    foldl_builder_data]
  rw [List.map_congr_left fun s _ => chunkI_data s]
  have e1 : ("---\nmarp: true").data =
      ['-', '-', '-'] ++ '\n' :: ("marp: true").data := by decide
  have e2 : ("---\n# ").data = ['-', '-', '-', '\n', '#', ' '] := by decide
  have e3 : ("\n").data = ['\n'] := by decide
  rw [e1, e2, e3]
  simp

/-- Re-parsing the indev render: the preamble paragraph formed by
`marp: true` and the theme lines is underlined by the `---` that precedes the
deck title into a setext heading, then the deck title's ATX heading, then the
slide titles.  `M` names the preamble's line decomposition. -/
theorem setext_convertToMarpIndev (slides : List Slide) (title theme : String)
    (M : List (List Char)) (h : ∀ s ∈ slides, goodSlideS s)
    (ht : goodTitleS title)
    (hM : splitNl ("marp: true".data ++ theme.data ++ ['-', '-', '-']) =
      M ++ [['-', '-', '-']])
    (hMne : M ≠ []) (hMp : ∀ l ∈ M, classifyLine l = LineKind.plain) :
    reparsedTitles (convertToMarpIndev slides title theme) =
      String.mk (trimChars M.flatten) :: title :: slides.map Slide.Title := by
  have hline : '\n' ∉ ('#' :: ' ' :: title.data) := by
    simp only [List.mem_cons]
    rintro (hx | hx | hx)
    · exact absurd hx (by decide)
    · exact absurd hx (by decide)
    · exact ht.1 hx
  have hatx : classifyLine ('#' :: ' ' :: title.data) = .atx 1 title.data := by
    rw [classify_sharp_space, ht.2.1]
  have hflat : setextFold none
      (splitNl (styleTag.data ++ (slides.map chunkI).flatten)) =
      slides.map fun x => x.Title.data := by
    cases slides with
    | nil =>
      rw [show (([] : List Slide).map chunkI).flatten = [] from rfl,
        List.append_nil, splitNl_styleTag,
        setextFold_cons_html none classify_style []]
      rfl
    | cons s rest =>
      have e0 : ((s :: rest).map chunkI).flatten =
          '\n' :: (chunkB s ++ (rest.map chunkI).flatten) := by simp [chunkI]
      rw [e0, splitNl_append_cons, splitNl_styleTag]
      simp only [List.singleton_append]
      rw [setextFold_cons_html none classify_style _,
        setextFold_chunk s (h s (List.mem_cons_self s rest)) _,
        chunksI_setext rest (fun x hx => h x (List.mem_cons_of_mem s hx))]
      simp
  rw [reparsedTitles, convertToMarpIndev_data, splitNl_append_cons,
    splitNl_append_cons, splitNl_append_cons,
    splitNl_single (by decide : '\n' ∉ ['-', '-', '-']),
    splitNl_single hline, hM]
  simp only [List.append_assoc, List.singleton_append, List.cons_append,
    List.nil_append]
  rw [setextFold_cons_underline_none classify_dashes _,
    setextFold_para_start M hMne hMp _,
    setextFold_cons_underline_some M.flatten classify_dashes _,
    setextFold_cons_atx none hatx (by decide) _, hflat,
    List.map_cons, List.map_cons, map_mk_titles]

/-- C8 counterexample: even for the well-formed slide `{Title "T",
Content "body"}` the part_000 render re-parses to `["marp: true", "T"]`, not
`["T"]` — the preamble's `marp: true` line followed by the first `---`
separator is a setext heading, so re-parsing does NOT recover the original
ordered sequence of titles. -/
theorem C8_counterexample :
    reparsedTitles (convertToMarpB [{ Title := "T", Content := "body" }]) =
      ["marp: true", "T"] ∧
    (["marp: true", "T"] : List String) ≠
      [{ Title := "T", Content := "body" : Slide }].map Slide.Title := by
  refine ⟨by decide, by decide⟩

/-- C8 (amended): the round trip fails for every nonempty slide sequence
because the render's own preamble re-parses as an extra leading heading.  For
nonempty sequences of well-formed slides (single-line already-trimmed
`#`-free titles; contents whose lines are blank or start with an
alphanumeric character, empty or ending in a newline) the re-parse is exactly
characterized: the part_000 render yields `"marp: true"` followed by the
slide titles, and the indev render yields the setext heading formed from its
`marp: true` + theme preamble paragraph, then the deck title, then the slide
titles. -/
theorem C8_roundtrip_wellformed :
    (∀ slides : List Slide, slides ≠ [] → (∀ s ∈ slides, goodSlideS s) →
      reparsedTitles (convertToMarpB slides) =
        "marp: true" :: slides.map Slide.Title) ∧
    (∀ (slides : List Slide) (title theme : String) (M : List (List Char)),
      (∀ s ∈ slides, goodSlideS s) → goodTitleS title →
      splitNl ("marp: true".data ++ theme.data ++ ['-', '-', '-']) =
        M ++ [['-', '-', '-']] →
      M ≠ [] → (∀ l ∈ M, classifyLine l = LineKind.plain) →
      reparsedTitles (convertToMarpIndev slides title theme) =
        String.mk (trimChars M.flatten) :: title :: slides.map Slide.Title) :=
  ⟨setext_convertToMarpB,
    fun slides title theme M h ht hM hMne hMp =>
      setext_convertToMarpIndev slides title theme M h ht hM hMne hMp⟩

/-- C8 witness: one well-formed slide, deck title `"Deck"`, theme
`"\ntheme: x\n"` — the part_000 render re-parses to `["marp: true", "T"]`
and the indev render to `["marp: truetheme: x", "Deck", "T"]`. -/
theorem C8_witness :
    (([({ Title := "T", Content := "body\n" } : Slide)] : List Slide) ≠ [] ∧
      (∀ s ∈ [({ Title := "T", Content := "body\n" } : Slide)], goodSlideS s) ∧
      goodTitleS "Deck" ∧
      splitNl ("marp: true".data ++ ("\ntheme: x\n").data ++ ['-', '-', '-']) =
        [("marp: true").data, ("theme: x").data] ++ [['-', '-', '-']] ∧
      ([("marp: true").data, ("theme: x").data] : List (List Char)) ≠ [] ∧
      (∀ l ∈ [("marp: true").data, ("theme: x").data],
        classifyLine l = LineKind.plain)) ∧
    reparsedTitles (convertToMarpB [{ Title := "T", Content := "body\n" }]) =
      "marp: true" ::
        [{ Title := "T", Content := "body\n" : Slide }].map Slide.Title ∧
    reparsedTitles (convertToMarpIndev [{ Title := "T", Content := "body\n" }]
        "Deck" "\ntheme: x\n") =
      String.mk (trimChars ([("marp: true").data, ("theme: x").data] :
          List (List Char)).flatten) :: "Deck" ::
        [{ Title := "T", Content := "body\n" : Slide }].map Slide.Title := by
  refine ⟨⟨by decide, by decide, by decide, by decide, by decide, by decide⟩,
    ?_, ?_⟩
  · exact C8_roundtrip_wellformed.1 [{ Title := "T", Content := "body\n" }]
      (by decide) (by decide)
  · exact C8_roundtrip_wellformed.2 [{ Title := "T", Content := "body\n" }]
      "Deck" "\ntheme: x\n" [("marp: true").data, ("theme: x").data]
      (by decide) (by decide) (by decide) (by decide) (by decide)

/-- Ghost-instrumented state for the indev segmenter: the walker state plus,
per recorded image, the pair (1-based position at which the then-open slide
will land once closed — i.e. `len(slides)+1` at the encounter — and a snapshot
of that slide).  `owners` is specification-side instrumentation only; the
projection lemma `gWalk_base` shows the instrumented walk computes exactly
`walkINode` on the `base` component. -/
structure GState where
  base : IState
  owners : List (Nat × Slide)

/- The instrumented walk: every case updates `base` exactly as `walkINode`
does; only the image case additionally records the ghost pair. -/
mutual
def gWalkNode (st : GState) (n : Node) : GState :=
  match n with
  | .document cs => gWalkForest st cs
  | .heading level cs =>
    let headingText := extractTextForest cs
    let b := st.base
    let b1 :=
      if level ≤ 4 then
        { b with
          slides := b.slides ++
            (match b.currentSlide with | some c => [c] | none => []),
          currentSlide := some { Title := headingText, Content := "" },
          count := b.count + 1 }
      else b
    gWalkForest ⟨{ b1 with afterOption := true }, st.owners⟩ cs
  | .paragraph cs => gWalkForest st cs
  | .textBlock cs =>
    if st.base.afterOption then
      gWalkForest ⟨{ st.base with afterOption := false }, st.owners⟩ cs
    else
      let textContent := extractTextForest cs
      if isQiitaBlock textContent then
        ⟨{ st.base with currentSlide :=
            (addContent st.base.currentSlide
              (extractTextFromQiitaBlock textContent ++ "\n")) }, st.owners⟩
      else
        gWalkForest
          ⟨{ st.base with currentSlide :=
              (addContent st.base.currentSlide (textContent ++ "\n")) }, st.owners⟩ cs
  | .textNode s =>
    if st.base.afterOption then
      ⟨{ st.base with afterOption := false }, st.owners⟩
    else if isQiitaBlock s then
      ⟨{ st.base with currentSlide :=
          (addContent st.base.currentSlide
            (extractTextFromQiitaBlock s ++ "\n")) }, st.owners⟩
    else
      ⟨{ st.base with currentSlide :=
          (addContent st.base.currentSlide (s ++ "\n")) }, st.owners⟩
  | .stringNode _ => st
  | .rawHTML s =>
    ⟨{ st.base with currentSlide :=
        (addContent st.base.currentSlide ("\n" ++ s)) }, st.owners⟩
  | .htmlBlock s =>
    ⟨{ st.base with currentSlide :=
        (addContent st.base.currentSlide ("\n" ++ s ++ "\n")) }, st.owners⟩
  | .listNode cs => gWalkForest st cs
  | .listItem cs =>
    gWalkForest
      (if st.base.currentSlide.isSome then
        ⟨{ st.base with afterOption := true }, st.owners⟩
      else st) cs
  | .codeBlock s =>
    ⟨{ st.base with currentSlide :=
        (addContent st.base.currentSlide ("\n```\n" ++ s ++ "\n```\n")) }, st.owners⟩
  | .codeSpan s =>
    ⟨{ st.base with currentSlide :=
        (addContent st.base.currentSlide ("`" ++ s ++ "`\n")) }, st.owners⟩
  | .fencedCodeBlock s =>
    ⟨{ st.base with currentSlide :=
        (addContent st.base.currentSlide ("\n```\n" ++ s ++ "\n```\n")) }, st.owners⟩
  | .image dest cs =>
    let st1 :=
      if st.base.currentSlide.isSome then
        ⟨{ st.base with
            images := st.base.images ++ ["\n---\n![bg fit](" ++ dest ++ ")\n"],
            imagesIndex := st.base.imagesIndex ++ [st.base.count],
            afterOption := true },
          st.owners ++
            [(st.base.slides.length + 1, st.base.currentSlide.getD default)]⟩
      else st
    gWalkForest st1 cs
  | .link dest cs =>
    let st1 :=
      if st.base.currentSlide.isSome then
        ⟨{ st.base with
            currentSlide := (addContent st.base.currentSlide
              ("\n[" ++ extractTextForest cs ++ "](" ++ dest ++ ")\n")),
            afterOption := true }, st.owners⟩
      else st
    gWalkForest st1 cs
  | .autoLink url =>
    if st.base.currentSlide.isSome then
      ⟨{ st.base with
          currentSlide := (addContent st.base.currentSlide
            ("\n[リンク](" ++ url ++ ")\n")),
          afterOption := true }, st.owners⟩
    else st
def gWalkForest (st : GState) (f : Forest) : GState :=
  match f with
  | .nil => st
  | .cons n rest => gWalkForest (gWalkNode st n) rest
end

mutual
theorem gWalkNode_base (st : GState) (n : Node) :
    (gWalkNode st n).base = walkINode st.base n := by
  cases n with
  | document cs => exact gWalkForest_base st cs
  | heading level cs =>
    rw [gWalkNode, walkINode]
    exact gWalkForest_base _ cs
  | paragraph cs => exact gWalkForest_base st cs
  | textBlock cs =>
    rw [gWalkNode, walkINode]
    by_cases hflag : st.base.afterOption
    · simp only [hflag, if_true]
      exact gWalkForest_base _ cs
    · simp only [hflag, if_false]
      by_cases hqi : isQiitaBlock (extractTextForest cs)
      · simp [hqi]
      · simp only [hqi, if_false]
        exact gWalkForest_base _ cs
  | textNode s =>
    rw [gWalkNode, walkINode]
    by_cases hflag : st.base.afterOption
    · simp [hflag]
    · by_cases hqi : isQiitaBlock s <;> simp [hflag, hqi]
  | stringNode s => rfl
  | rawHTML s => rfl
  | htmlBlock s => rfl
  | listNode cs => exact gWalkForest_base st cs
  | listItem cs =>
    rw [gWalkNode, walkINode]
    by_cases hc : st.base.currentSlide.isSome
    · simp only [hc, if_true]
      exact gWalkForest_base _ cs
    · simp only [hc, if_false]
      exact gWalkForest_base _ cs
  | codeBlock s => rfl
  | codeSpan s => rfl
  | fencedCodeBlock s => rfl
  | image dest cs =>
    rw [gWalkNode, walkINode]
    by_cases hc : st.base.currentSlide.isSome
    · simp only [hc, if_true]
      exact gWalkForest_base _ cs
    · simp only [hc, if_false]
      exact gWalkForest_base _ cs
  | link dest cs =>
    rw [gWalkNode, walkINode]
    by_cases hc : st.base.currentSlide.isSome
    · simp only [hc, if_true]
      exact gWalkForest_base _ cs
    · simp only [hc, if_false]
      exact gWalkForest_base _ cs
  | autoLink url => rw [gWalkNode, walkINode]; split <;> simp

theorem gWalkForest_base (st : GState) (f : Forest) :
    (gWalkForest st f).base = walkIForest st.base f := by
  cases f with
  | nil => rfl
  | cons n rest =>
    rw [gWalkForest, walkIForest, ← gWalkNode_base st n]
    exact gWalkForest_base (gWalkNode st n) rest
end

/-- The owner slide, possibly with content appended later: same title,
content an extension. -/
def contentExtends (c d : Slide) : Prop :=
  c.Title = d.Title ∧ ∃ t : String, d.Content = c.Content ++ t

theorem contentExtends_refl (c : Slide) : contentExtends c c :=
  ⟨rfl, "", (String.append_empty c.Content).symm⟩

theorem contentExtends_append (c d : Slide) (txt : String)
    (h : contentExtends c d) :
    contentExtends c { d with Content := d.Content ++ txt } := by
  obtain ⟨ht, t, hc⟩ := h
  exact ⟨ht, t ++ txt, by rw [hc, String.append_assoc]⟩

/-- A ghost owner entry `(p, c)` tracked against the walker state: `p` is
1-based; the owner slide sits (evolved) at `slides[p-1]`, or is still the open
slide and `p = len(slides) + 1`. -/
def tracksAt (st : IState) (p : Nat) (c : Slide) : Prop :=
  1 ≤ p ∧
  ((∃ d, st.slides.get? (p - 1) = some d ∧ contentExtends c d) ∨
    (st.slides.length + 1 = p ∧
      ∃ d, st.currentSlide = some d ∧ contentExtends c d))

theorem tracksAt_same {st st' : IState} {p : Nat} {c : Slide}
    (hs : st'.slides = st.slides) (hc : st'.currentSlide = st.currentSlide)
    (h : tracksAt st p c) : tracksAt st' p c := by
  unfold tracksAt at h ⊢
  rw [hs, hc]
  exact h

theorem tracksAt_addContent (st : IState) (p : Nat) (c : Slide) (txt : String)
    (h : tracksAt st p c) :
    tracksAt { st with currentSlide := addContent st.currentSlide txt } p c := by
  obtain ⟨hp, hor⟩ := h
  refine ⟨hp, ?_⟩
  cases hcur : st.currentSlide with
  | none =>
    rcases hor with h | ⟨_, d, hd, _⟩
    · exact Or.inl h
    · rw [hcur] at hd; cases hd
  | some d =>
    rcases hor with h | ⟨hlen, d', hd', hext⟩
    · exact Or.inl h
    · rw [hcur] at hd'
      obtain rfl : d = d' := by injection hd'
      refine Or.inr ⟨hlen, _, ?_, contentExtends_append c d txt hext⟩
      simp [addContent, hcur]

theorem tracksAt_close_open (st : IState) (ttl : String) (p : Nat) (c : Slide)
    (h : tracksAt st p c) :
    tracksAt { st with
      slides := st.slides ++
        (match st.currentSlide with | some x => [x] | none => []),
      currentSlide := some { Title := ttl, Content := "" },
      count := st.count + 1 } p c := by
  obtain ⟨hp, hor⟩ := h
  refine ⟨hp, Or.inl ?_⟩
  rcases hor with ⟨d, hd, hext⟩ | ⟨hlen, d, hd, hext⟩
  · refine ⟨d, ?_, hext⟩
    have hlt : p - 1 < st.slides.length := (List.get?_eq_some.mp hd).1
    show (st.slides ++ _).get? (p - 1) = some d
    rw [List.get?_append hlt]
    exact hd
  · refine ⟨d, ?_, hext⟩
    have hp1 : p - 1 = st.slides.length := by omega
    show (st.slides ++ _).get? (p - 1) = some d
    rw [hd, hp1]
    exact List.get?_concat_length st.slides d

/-- Invariant of the instrumented walk: the heading counter is
`len(slides) + 1` exactly when a slide is open; the recorded indices are the
ghost positions; every ghost entry is tracked. -/
def GInv (g : GState) : Prop :=
  g.base.count = (g.base.slides.length : Int) +
    (if g.base.currentSlide.isSome then 1 else 0) ∧
  g.base.imagesIndex = g.owners.map (fun pc => (pc.1 : Int)) ∧
  ∀ pc ∈ g.owners, tracksAt g.base pc.1 pc.2

theorem GInv_addContent (g : GState) (txt : String) (h : GInv g) :
    GInv ⟨{ g.base with
      currentSlide := addContent g.base.currentSlide txt }, g.owners⟩ := by
  obtain ⟨h1, h2, h3⟩ := h
  refine ⟨?_, h2, fun pc hpc => tracksAt_addContent _ _ _ txt (h3 pc hpc)⟩
  cases hcur : g.base.currentSlide with
  | none => rw [hcur] at h1; simpa [addContent, hcur] using h1
  | some d => rw [hcur] at h1; simpa [addContent, hcur] using h1

theorem GInv_flag (g : GState) (b : Bool) (h : GInv g) :
    GInv ⟨{ g.base with afterOption := b }, g.owners⟩ := by
  obtain ⟨h1, h2, h3⟩ := h
  exact ⟨h1, h2, fun pc hpc => tracksAt_same rfl rfl (h3 pc hpc)⟩

theorem GInv_heading (g : GState) (ttl : String) (h : GInv g) :
    GInv ⟨{ g.base with
      slides := g.base.slides ++
        (match g.base.currentSlide with | some x => [x] | none => []),
      currentSlide := some { Title := ttl, Content := "" },
      count := g.base.count + 1,
      afterOption := true }, g.owners⟩ := by
  obtain ⟨h1, h2, h3⟩ := h
  refine ⟨?_, h2, ?_⟩
  · cases hcur : g.base.currentSlide with
    | none =>
      rw [hcur] at h1
      simp at h1
      simp [hcur, h1]
    | some d =>
      rw [hcur] at h1
      simp at h1
      simp [hcur, h1]
  · intro pc hpc
    have ht := tracksAt_close_open g.base ttl pc.1 pc.2 (h3 pc hpc)
    exact tracksAt_same rfl rfl ht

theorem GInv_image (g : GState) (dest : String)
    (hsome : g.base.currentSlide.isSome) (h : GInv g) :
    GInv ⟨{ g.base with
      images := g.base.images ++ ["\n---\n![bg fit](" ++ dest ++ ")\n"],
      imagesIndex := g.base.imagesIndex ++ [g.base.count],
      afterOption := true },
      g.owners ++
        [(g.base.slides.length + 1, g.base.currentSlide.getD default)]⟩ := by
  obtain ⟨h1, h2, h3⟩ := h
  obtain ⟨d, hd⟩ := Option.isSome_iff_exists.mp hsome
  rw [hd] at h1
  simp only [Option.isSome_some, if_true] at h1
  refine ⟨?_, ?_, ?_⟩
  · simpa [hd] using h1
  · show g.base.imagesIndex ++ [g.base.count] = _
    rw [List.map_append, ← h2]
    simp only [List.map_cons, List.map_nil]
    rw [h1]
    push_cast
    norm_num
  · intro pc hpc
    rcases List.mem_append.mp hpc with hold | hnew
    · exact tracksAt_same rfl rfl (h3 pc hold)
    · have hpc' : pc = (g.base.slides.length + 1, g.base.currentSlide.getD default) := by
        simpa using hnew
      subst hpc'
      refine ⟨by omega, Or.inr ⟨rfl, d, ?_, ?_⟩⟩
      · exact hd
      · rw [hd]
        exact contentExtends_refl d

mutual
theorem gWalkNode_inv (n : Node) (g : GState) (h : GInv g) :
    GInv (gWalkNode g n) := by
  cases n with
  | document cs => exact gWalkForest_inv cs g h
  | heading level cs =>
    rw [gWalkNode]
    by_cases h4 : level ≤ 4
    · simp only [h4, if_true]
      exact gWalkForest_inv cs _ (GInv_heading g (extractTextForest cs) h)
    · simp only [h4, if_false]
      exact gWalkForest_inv cs _ (GInv_flag g true h)
  | paragraph cs => exact gWalkForest_inv cs g h
  | textBlock cs =>
    rw [gWalkNode]
    by_cases hflag : g.base.afterOption
    · simp only [hflag, if_true]
      exact gWalkForest_inv cs _ (GInv_flag g false h)
    · simp only [hflag, if_false]
      by_cases hqi : isQiitaBlock (extractTextForest cs)
      · simp only [hqi, if_true]
        exact GInv_addContent g _ h
      · simp only [hqi, if_false]
        exact gWalkForest_inv cs _ (GInv_addContent g _ h)
  | textNode s =>
    rw [gWalkNode]
    by_cases hflag : g.base.afterOption
    · simp only [hflag, if_true]
      exact GInv_flag g false h
    · simp only [hflag, if_false]
      by_cases hqi : isQiitaBlock s
      · simp only [hqi, if_true]
        exact GInv_addContent g _ h
      · simp only [hqi, if_false]
        exact GInv_addContent g _ h
  | stringNode s => exact h
  | rawHTML s => exact GInv_addContent g _ h
  | htmlBlock s => exact GInv_addContent g _ h
  | listNode cs => exact gWalkForest_inv cs g h
  | listItem cs =>
    rw [gWalkNode]
    by_cases hc : g.base.currentSlide.isSome
    · simp only [hc, if_true]
      exact gWalkForest_inv cs _ (GInv_flag g true h)
    · simp only [hc, if_false]
      exact gWalkForest_inv cs g h
  | codeBlock s => exact GInv_addContent g _ h
  | codeSpan s => exact GInv_addContent g _ h
  | fencedCodeBlock s => exact GInv_addContent g _ h
  | image dest cs =>
    rw [gWalkNode]
    by_cases hc : g.base.currentSlide.isSome
    · simp only [hc, if_true]
      exact gWalkForest_inv cs _ (GInv_image g dest hc h)
    · simp only [hc, if_false]
      exact gWalkForest_inv cs g h
  | link dest cs =>
    rw [gWalkNode]
    by_cases hc : g.base.currentSlide.isSome
    · simp only [hc, if_true]
      exact gWalkForest_inv cs _ (GInv_flag ⟨_, g.owners⟩ true (GInv_addContent g _ h))
    · simp only [hc, if_false]
      exact gWalkForest_inv cs g h
  | autoLink url =>
    rw [gWalkNode]
    by_cases hc : g.base.currentSlide.isSome
    · simp only [hc, if_true]
      exact GInv_flag ⟨_, g.owners⟩ true (GInv_addContent g _ h)
    · simp only [hc, if_false]
      exact h

theorem gWalkForest_inv (f : Forest) (g : GState) (h : GInv g) :
    GInv (gWalkForest g f) := by
  cases f with
  | nil => exact h
  | cons n rest => exact gWalkForest_inv rest (gWalkNode g n) (gWalkNode_inv n g h)
end

theorem gWalk_inv_final (doc : Node) : GInv (gWalkNode ⟨initIState, []⟩ doc) :=
  gWalkNode_inv doc ⟨initIState, []⟩ ⟨by simp [initIState], rfl, by simp⟩

/-- C3 (amended): in the indev version every recorded image index equals the
1-based position, in the final slide sequence, of the slide that was open at
the encounter.  Formally, via the ghost-instrumented walk (whose `base`
projects to `parseMarkdown`, see `gWalkNode_base`): the m-th recorded index
`k` equals the m-th ghost position `p`, `p ≥ 1`, and position `p` (1-based)
of the final sequence holds a slide with the snapshot's title whose content
extends the snapshot's content.  (In the part_000 version the counter starts
at -1, so the recorded value is one less than the position — see the
counterexample.) -/
theorem C3_recorded_index_is_slide_position (doc : Node) (m : Nat) (k : Int)
    (hk : (parseMarkdownIndev doc).imagesIndex.get? m = some k) :
    ∃ (p : Nat) (c d : Slide),
      (gWalkNode ⟨initIState, []⟩ doc).owners.get? m = some (p, c) ∧
      (p : Int) = k ∧ 1 ≤ p ∧
      (slidesIndev doc).get? (p - 1) = some d ∧
      c.Title = d.Title ∧ ∃ t : String, d.Content = c.Content ++ t := by
  obtain ⟨h1, h2, h3⟩ := gWalk_inv_final doc
  have hb : (gWalkNode ⟨initIState, []⟩ doc).base = parseMarkdownIndev doc :=
    gWalkNode_base ⟨initIState, []⟩ doc
  rw [← hb, h2, List.get?_map] at hk
  obtain ⟨⟨p, c⟩, hpc, hpk⟩ := Option.map_eq_some'.mp hk
  obtain ⟨hp1, hor⟩ := h3 (p, c) (List.get?_mem hpc)
  have hfinal : slidesIndev doc =
      (gWalkNode ⟨initIState, []⟩ doc).base.slides ++
        (match (gWalkNode ⟨initIState, []⟩ doc).base.currentSlide with
          | some x => [x] | none => []) := by
    rw [hb]; rfl
  rcases hor with ⟨d, hd, hext⟩ | ⟨hlen, d, hd, hext⟩
  · refine ⟨p, c, d, hpc, hpk, hp1, ?_, hext.1, hext.2⟩
    rw [hfinal]
    have hlt : p - 1 < (gWalkNode ⟨initIState, []⟩ doc).base.slides.length :=
      (List.get?_eq_some.mp hd).1
    rw [List.get?_append hlt]
    exact hd
  · refine ⟨p, c, d, hpc, hpk, hp1, ?_, hext.1, hext.2⟩
    rw [hfinal, hd]
    have hp1' : p - 1 = (gWalkNode ⟨initIState, []⟩ doc).base.slides.length := by
      omega
    rw [hp1']
    exact List.get?_concat_length _ d

/-- The goldmark parse of `"# T\n![](u)"` (a heading, then a paragraph whose
only child is an image): used against the part_000 segmenter. -/
def docC3b : Node :=
  .document (Forest.ofList
    [ .heading 1 (Forest.ofList [.textNode "T"]),
      .paragraph (Forest.ofList [.image "u" Forest.nil]) ])

/-- C3 counterexample: in the part_000 version `count` starts at -1, so the
image encountered while the first (and only) slide is open — a slide whose
final 1-based position is 1 — is recorded with index 0, not 1. -/
theorem C3_counterexample :
    (parseMarkdownB docC3b).imagesIndex = [0] ∧
    slidesB docC3b = [{ Title := "T", Content := "T\n\n" }] ∧
    (0 : Int) ≠ 1 := by
  refine ⟨by decide, by decide, by decide⟩

/-- The same parse shape against the indev segmenter: used as the witness. -/
def docC3a : Node :=
  .document (Forest.ofList
    [ .heading 1 (Forest.ofList [.textNode "TA"]),
      .paragraph (Forest.ofList [.image "ua" Forest.nil]) ])

/-- C3 witness: for the concrete one-slide document the indev segmenter
records index 1, and slide 1 of the final sequence is the slide that was open
at the encounter. -/
theorem C3_witness :
    (parseMarkdownIndev docC3a).imagesIndex.get? 0 = some 1 ∧
    (∃ (p : Nat) (c d : Slide),
      (gWalkNode ⟨initIState, []⟩ docC3a).owners.get? 0 = some (p, c) ∧
      (p : Int) = 1 ∧ 1 ≤ p ∧
      (slidesIndev docC3a).get? (p - 1) = some d ∧
      c.Title = d.Title ∧ ∃ t : String, d.Content = c.Content ++ t) :=
  ⟨by decide, C3_recorded_index_is_slide_position docC3a 0 1 (by decide)⟩

end Md2Marp
